import Mathlib

/-!
Shallow embedding of the billing & account-ledger engine of the `dent`
repository (a dental-lab back office).  The definitions below are translated
from:

* `src/server/services/billing-service.ts` — `getLatestBalance`,
  `createAccountEntry`, `createInvoiceFromOrder`, `recordPayment`,
  `getStatementByClient`, `priceForWorkType`, `formatWorkTypeLabel`;
* `src/pages/api/billing/invoices/[id].ts` — `recomputeBalances`, the PATCH
  handler core (`editInvoiceAmount` here) and the DELETE handler core
  (`deleteInvoice` here);
* the payments DELETE route — `deletePayment` here;
* the static price table `WORK_TYPE_PRICES`.

Modelling conventions:

* Monetary amounts and timestamps are `Int` (timestamps in milliseconds,
  mirroring JS `Date.getTime()`; all claim scenarios use exact integral
  amounts, so integer arithmetic is faithful on them).
* Row ids are `Nat`, allocated from `DB.nextId`, mirroring store-assigned ids.
* The store returns rows of an unordered query in insertion order; a query
  ordered by `createdAt` alone leaves the order of equal timestamps
  unspecified, which the model resolves deterministically by the row id
  (ids grow in insertion order, so this coincides with the insertion order
  the store exhibits in practice).
* HTTP/auth/zod plumbing of the route handlers is outside the model; the
  handler bodies after validation are embedded directly, with domain errors
  as an explicit `BillingError` type (fallible code returns `Except`).
-/

namespace Dent

inductive InvoiceStatus
  | PENDING
  | PAID
  | CANCELLED
deriving DecidableEq, Repr

inductive PaymentStatus
  | PENDING
  | COMPLETED
  | FAILED
deriving DecidableEq, Repr

inductive WorkOrderStatus
  | CREATED
  | IN_PROGRESS
  | DONE
  | DELIVERED
deriving DecidableEq, Repr

inductive WorkType
  | PROTESIS
  | CORONA_ZIRCONIA
  | CORONA_A_PERNO
  | MODELO_IMPRESO
  | TERMINACION_1_A_5
  | TERMINACION_6_A_10
  | REPARACION
  | PROVISORIO
  | GANCHO_LABRADO
deriving DecidableEq, Repr

open WorkType in
/-- The static work-type → price table (`WORK_TYPE_PRICES` in `pricing.ts`). -/
def WORK_TYPE_PRICES : WorkType → Int
  | .PROTESIS => 2750
  | .CORONA_ZIRCONIA => 2990
  | .CORONA_A_PERNO => 3200
  | .MODELO_IMPRESO => 400
  | .TERMINACION_1_A_5 => 3350
  | .TERMINACION_6_A_10 => 200
  | .REPARACION => 1150
  | PROVISORIO => 1780
  | .GANCHO_LABRADO => 1500

/-- `priceForWorkType` in `billing-service.ts`: `0` when the work type is
absent, otherwise the table price (the table covers every `WorkType`, so the
`?? 0` fallback of the map lookup never fires in the model). -/
def priceForWorkType : Option WorkType → Int
  | none => 0
  | some wt => WORK_TYPE_PRICES wt

structure WorkOrder where
  id : Nat
  dentistId : Option Nat
  status : WorkOrderStatus
  workType : Option WorkType
  price : Option Int
  displayCode : Option String
  patientName : Option String
deriving DecidableEq, Repr

structure Invoice where
  id : Nat
  clientId : Nat
  workOrderId : Option Nat
  amount : Int
  currency : String
  status : InvoiceStatus
  createdAt : Int
deriving DecidableEq, Repr

structure Payment where
  id : Nat
  invoiceId : Nat
  provider : String
  providerRef : String
  amount : Int
  status : PaymentStatus
  createdAt : Int
deriving DecidableEq, Repr

structure AccountEntry where
  id : Nat
  clientId : Nat
  invoiceId : Nat
  debit : Int
  credit : Int
  balanceAfter : Int
  createdAt : Int
deriving DecidableEq, Repr

/-- The relevant tables of the hosted store, rows in insertion order. -/
structure DB where
  clients : List Nat
  workOrders : List WorkOrder
  invoices : List Invoice
  payments : List Payment
  entries : List AccountEntry
  nextId : Nat
deriving DecidableEq, Repr

inductive BillingError
  | OrderNotFound
  | BillingPartyMissing
  | OrderNotReady
  | DuplicateInvoice
  | AmountUndetermined
  | ClientNotFound
  | NonPositiveAmount
  | InvoiceNotFound
  | PaymentNotFound
  | InvalidAmount
deriving DecidableEq, Repr

/-! ### Stable insertion sort, modelling the store's `order(...)` clauses -/

/-- Insert `x` before the first element `y` with `le x y`. -/
def insertLe (le : α → α → Bool) (x : α) : List α → List α
  | [] => [x]
  | y :: ys => if le x y then x :: y :: ys else y :: insertLe le x ys

/-- Stable insertion sort: on ties (`le x y` and `le y x`) the original
order is preserved. -/
def insSort (le : α → α → Bool) : List α → List α
  | [] => []
  | x :: xs => insertLe le x (insSort le xs)

/-- Order of `account_entries` by `(createdAt, id)`: the explicit order used
by `recomputeBalances`; queries ordered by `createdAt` alone are modelled
with the same id tiebreak (ids grow in insertion order). -/
def entryLe (a b : AccountEntry) : Bool :=
  decide (a.createdAt < b.createdAt ∨ (a.createdAt = b.createdAt ∧ a.id ≤ b.id))

/-- Order of `invoices` by `(createdAt, id)` (see `entryLe`). -/
def invoiceLe (a b : Invoice) : Bool :=
  decide (a.createdAt < b.createdAt ∨ (a.createdAt = b.createdAt ∧ a.id ≤ b.id))

/-- A client's ledger rows in `(createdAt, id)` order. -/
def clientEntries (db : DB) (clientId : Nat) : List AccountEntry :=
  insSort entryLe (db.entries.filter fun e => e.clientId == clientId)

/-! ### LedgerEntryRecorder -/

/-- `getLatestBalance`: `balanceAfter` of the client's most recent ledger row
(`order createdAt desc, limit 1`), `0` when the ledger is empty. -/
def getLatestBalance (db : DB) (clientId : Nat) : Int :=
  match (clientEntries db clientId).getLast? with
  | some e => e.balanceAfter
  | none => 0

/-- `createAccountEntry`: append one debit/credit row, computing its running
balance from the most recent row. -/
def createAccountEntry (db : DB) (clientId invoiceId : Nat) (debit credit createdAt : Int) :
    DB × AccountEntry :=
  let previousBalance := getLatestBalance db clientId
  let e : AccountEntry :=
    { id := db.nextId
      clientId := clientId
      invoiceId := invoiceId
      debit := debit
      credit := credit
      balanceAfter := previousBalance + debit - credit
      createdAt := createdAt }
  ({ db with entries := db.entries ++ [e], nextId := db.nextId + 1 }, e)

/-! ### BalanceRecalculator -/

/-- Running-balance replay: the `(id, newBalance)` pairs the recompute loop
writes back, in `(createdAt, id)` order. -/
def replay (prev : Int) : List AccountEntry → List (Nat × Int)
  | [] => []
  | e :: rest =>
    let b := prev + e.debit - e.credit
    (e.id, b) :: replay b rest

def lookupBal (bals : List (Nat × Int)) (id : Nat) : Option Int :=
  (bals.find? fun p => p.fst == id).map Prod.snd

/-- Apply one recompute write-back (`update balanceAfter where id = ...`). -/
def applyBals (bals : List (Nat × Int)) (e : AccountEntry) : AccountEntry :=
  match lookupBal bals e.id with
  | some b => { e with balanceAfter := b }
  | none => e

/-- `recomputeBalances` (`invoices/[id].ts` and the payments DELETE route):
load the client's entries ordered by `(createdAt, id)`, replay the running
sum from 0, rewrite every `balanceAfter` keyed by row id. -/
def recomputeBalances (db : DB) (clientId : Nat) : DB :=
  let bals := replay 0 (clientEntries db clientId)
  { db with entries := db.entries.map (applyBals bals) }

/-! ### InvoiceGenerator -/

/-- `createInvoiceFromOrder`.  `now` is the ambient clock (`new Date()`);
the store stamps the created invoice with it, and the debit entry reuses
`invoice.createdAt`. -/
def createInvoiceFromOrder (db : DB) (now : Int) (orderId : Nat) :
    Except BillingError (DB × Invoice) :=
  match db.workOrders.find? (fun o => o.id == orderId) with
  | none => .error .OrderNotFound
  | some order =>
    match order.dentistId with
    | none => .error .BillingPartyMissing
    | some billingClientId =>
      if order.status ≠ .DONE ∧ order.status ≠ .DELIVERED then
        .error .OrderNotReady
      else if db.invoices.any (fun inv => inv.workOrderId == some order.id) then
        .error .DuplicateInvoice
      else
        let amountFromWorkType := priceForWorkType order.workType
        let finalAmount :=
          if amountFromWorkType > 0 then amountFromWorkType else order.price.getD 0
        if finalAmount ≤ 0 then
          .error .AmountUndetermined
        else
          let invoice : Invoice :=
            { id := db.nextId
              clientId := billingClientId
              workOrderId := some order.id
              amount := finalAmount
              currency := "ARS"
              status := .PENDING
              createdAt := now }
          let db1 : DB :=
            { db with invoices := db.invoices ++ [invoice], nextId := db.nextId + 1 }
          -- `if (!order.price)`: JS falsiness covers both null and 0
          let db2 : DB :=
            if order.price = none ∨ order.price = some 0 then
              { db1 with workOrders := db1.workOrders.map fun o =>
                  if o.id == order.id then { o with price := some finalAmount } else o }
            else db1
          let (db3, _) :=
            createAccountEntry db2 billingClientId invoice.id finalAmount 0 invoice.createdAt
          .ok (db3, invoice)

/-! ### PaymentAllocator -/

/-- Sum of the amounts of a list of payment rows. -/
def sumAmounts (ps : List Payment) : Int :=
  ps.foldr (fun p s => p.amount + s) 0

/-- Sum of the payments targeting invoice `invId` inside `ps`
(the `paymentsByInvoice` aggregation of `recordPayment`: the code first
restricts to payments whose `invoiceId` is among the pending invoices and
then groups by `invoiceId`; for a pending invoice the two restrictions
compose to exactly this filter). -/
def paymentsSumIn (ps : List Payment) (invId : Nat) : Int :=
  sumAmounts (ps.filter fun p => p.invoiceId == invId)

/-- Sum of the payments recorded against invoice `invId` in the store. -/
def paymentsSum (db : DB) (invId : Nat) : Int :=
  paymentsSumIn db.payments invId

/-- `update invoices set status = st where id = invId`. -/
def setInvoiceStatus (db : DB) (invId : Nat) (st : InvoiceStatus) : DB :=
  { db with invoices := db.invoices.map fun inv =>
      if inv.id == invId then { inv with status := st } else inv }

/-- The allocation loop of `recordPayment`.  `snapshot` is the payments
table as read before the loop (outstanding amounts do not see the payments
the loop itself inserts).  Returns the post-loop store, the created payment
rows in creation order, and `firstInvoiceId` (the first invoice that
received an allocation). -/
def allocate (snapshot : List Payment) (date : Option Int) (now : Int) (note : String) :
    List Invoice → Int → DB → DB × List Payment × Option Nat
  | [], _, db => (db, [], none)
  | inv :: rest, remaining, db =>
    if remaining ≤ 0 then (db, [], none)
    else
      let invoiceAmount := inv.amount
      let paidAmount := paymentsSumIn snapshot inv.id
      let outstandingAmount := invoiceAmount - paidAmount
      if outstandingAmount ≤ 0 then allocate snapshot date now note rest remaining db
      else
        let applied := if outstandingAmount ≥ remaining then remaining else outstandingAmount
        let payment : Payment :=
          { id := db.nextId
            invoiceId := inv.id
            provider := "MANUAL"
            providerRef := note
            amount := applied
            status := .COMPLETED
            createdAt := date.getD now }
        let db1 : DB := { db with payments := db.payments ++ [payment], nextId := db.nextId + 1 }
        let db2 : DB :=
          if outstandingAmount - applied ≤ 0 then setInvoiceStatus db1 inv.id .PAID else db1
        let res := allocate snapshot date now note rest (remaining - applied) db2
        (res.1, payment :: res.2.1, some inv.id)

/-- The client's most recent invoice (`order createdAt desc, limit 1`, any
status), used as the fallback attribution of the single credit entry. -/
def mostRecentInvoice (db : DB) (clientId : Nat) : Option Invoice :=
  (insSort invoiceLe (db.invoices.filter fun inv => inv.clientId == clientId)).getLast?

/-- `recordPayment`: validate, allocate across the client's PENDING invoices
oldest first, then append one credit entry for the full amount. -/
def recordPayment (db : DB) (now : Int) (clientId : Nat) (amount : Int)
    (date : Option Int) (note : String) : Except BillingError (DB × List Payment) :=
  if ¬ db.clients.contains clientId then .error .ClientNotFound
  else if amount ≤ 0 then .error .NonPositiveAmount
  else
    let pending :=
      insSort invoiceLe
        (db.invoices.filter fun inv => inv.clientId == clientId && inv.status == .PENDING)
    let res := allocate db.payments date now note pending amount db
    let db1 := res.1
    let createdPayments := res.2.1
    let firstInvoiceId :=
      match res.2.2 with
      | some i => some i
      | none => (mostRecentInvoice db1 clientId).map Invoice.id
    match firstInvoiceId with
    | some invId =>
      let db2 := (createAccountEntry db1 clientId invId 0 amount (date.getD now)).1
      .ok (db2, createdPayments)
    | none => .ok (db1, createdPayments)

/-! ### InvoiceMutator -/

/-- The search of the PATCH handler for the ledger debit row that originated
from the invoice: `(clientId, invoiceId, debit = oldAmount, createdAt within
±5s of invoice.createdAt)` ordered by `createdAt` ascending, first row;
falling back to the first row for that client+invoice with `debit > 0`. -/
def findDebitEntry (entries : List AccountEntry) (clientId invId : Nat)
    (oldAmount invCreatedAt : Int) : Option AccountEntry :=
  let exact :=
    (insSort entryLe (entries.filter fun e =>
      e.clientId == clientId && e.invoiceId == invId &&
      decide (e.debit = oldAmount) &&
      decide (invCreatedAt - 5000 ≤ e.createdAt) &&
      decide (e.createdAt ≤ invCreatedAt + 5000))).head?
  match exact with
  | some e => some e
  | none =>
    (insSort entryLe (entries.filter fun e =>
      e.clientId == clientId && e.invoiceId == invId && decide (0 < e.debit))).head?

/-- The PATCH handler core of `/api/billing/invoices/[id]` (after auth and
JSON parsing): edit an invoice amount, repair the originating debit row,
recompute balances, and re-evaluate the invoice status. -/
def editInvoiceAmount (db : DB) (invoiceId : Nat) (amountValue : Int) :
    Except BillingError DB :=
  if amountValue ≤ 0 then .error .InvalidAmount
  else
    match db.invoices.find? (fun inv => inv.id == invoiceId) with
    | none => .error .InvoiceNotFound
    | some invoice =>
      let oldAmount := invoice.amount
      let db1 :=
        if oldAmount ≠ amountValue then
          let dbA : DB :=
            { db with invoices := db.invoices.map fun inv =>
                if inv.id == invoiceId then { inv with amount := amountValue } else inv }
          let dbB : DB :=
            match findDebitEntry dbA.entries invoice.clientId invoice.id oldAmount
                invoice.createdAt with
            | some accountEntry =>
              { dbA with entries := dbA.entries.map fun e =>
                  if e.id == accountEntry.id then { e with debit := amountValue } else e }
            | none => dbA
          recomputeBalances dbB invoice.clientId
        else db
      let totalPaid := paymentsSum db1 invoiceId
      let nextStatus : InvoiceStatus := if totalPaid ≥ amountValue then .PAID else .PENDING
      .ok (setInvoiceStatus db1 invoiceId nextStatus)

/-- The DELETE handler core of `/api/billing/invoices/[id]`: cascade-delete
the invoice's payments and ledger rows, delete the invoice, recompute. -/
def deleteInvoice (db : DB) (invoiceId : Nat) : Except BillingError DB :=
  match db.invoices.find? (fun inv => inv.id == invoiceId) with
  | none => .error .InvoiceNotFound
  | some invoice =>
    let db1 : DB :=
      { db with
        payments := db.payments.filter fun p => ¬ p.invoiceId == invoiceId
        entries := db.entries.filter fun e => ¬ e.invoiceId == invoiceId
        invoices := db.invoices.filter fun inv => ¬ inv.id == invoiceId }
    .ok (recomputeBalances db1 invoice.clientId)

/-- The search of the payments DELETE handler for the ledger credit row
matching the payment: `(clientId, invoiceId, credit = paymentAmount,
createdAt within ±5s of payment.createdAt)`, first by `createdAt`. -/
def findCreditEntry (entries : List AccountEntry) (clientId invId : Nat)
    (paymentAmount payCreatedAt : Int) : Option AccountEntry :=
  (insSort entryLe (entries.filter fun e =>
    e.clientId == clientId && e.invoiceId == invId &&
    decide (e.credit = paymentAmount) &&
    decide (payCreatedAt - 5000 ≤ e.createdAt) &&
    decide (e.createdAt ≤ payCreatedAt + 5000))).head?

/-- The DELETE handler core of `/api/billing/payments/[id]`: remove the
matching credit row if found, delete the payment, recompute, and revert the
invoice to PENDING when the remaining payments no longer cover its amount. -/
def deletePayment (db : DB) (paymentId : Nat) : Except BillingError DB :=
  match db.payments.find? (fun p => p.id == paymentId) with
  | none => .error .PaymentNotFound
  | some payment =>
    match db.invoices.find? (fun inv => inv.id == payment.invoiceId) with
    | none => .error .InvoiceNotFound
    | some invoice =>
      let db1 : DB :=
        match findCreditEntry db.entries invoice.clientId invoice.id payment.amount
            payment.createdAt with
        | some accountEntry =>
          { db with entries := db.entries.filter fun e => ¬ e.id == accountEntry.id }
        | none => db
      let db2 : DB := { db1 with payments := db1.payments.filter fun p => ¬ p.id == paymentId }
      let db3 := recomputeBalances db2 invoice.clientId
      let totalPaid := paymentsSum db3 invoice.id
      .ok (if totalPaid < invoice.amount then setInvoiceStatus db3 invoice.id .PENDING else db3)

/-! ### StatementBuilder -/

open WorkType in
/-- The store string of a `WorkType` enum value. -/
def workTypeName : WorkType → String
  | .PROTESIS => "PROTESIS"
  | .CORONA_ZIRCONIA => "CORONA_ZIRCONIA"
  | .CORONA_A_PERNO => "CORONA_A_PERNO"
  | .MODELO_IMPRESO => "MODELO_IMPRESO"
  | .TERMINACION_1_A_5 => "TERMINACION_1_A_5"
  | .TERMINACION_6_A_10 => "TERMINACION_6_A_10"
  | .REPARACION => "REPARACION"
  | PROVISORIO => "PROVISORIO"
  | .GANCHO_LABRADO => "GANCHO_LABRADO"

/-- `formatWorkTypeLabel`: split on underscores, keep each segment's first
character, lower-case the rest, join with spaces; generic label when the
value is absent or empty. -/
def formatWorkTypeLabel : Option WorkType → String
  | none => "Orden de trabajo"
  | some wt =>
    let value := workTypeName wt
    if value = "" then "Orden de trabajo"
    else
      String.intercalate " "
        ((value.splitOn "_").map fun segment =>
          if segment.length = 0 then segment
          else segment.take 1 ++ (segment.drop 1).toLower)

/-- `setHours(23, 59, 59, 999)` applied to the `dateTo` bound, modelled on
UTC day boundaries over millisecond timestamps. -/
def endOfDayMs (t : Int) : Int :=
  (t / 86400000) * 86400000 + 86399999

structure StatementRow where
  fecha : Int
  tipo : String
  compNro : String
  ordenId : Option Nat
  detalle : String
  paciente : String
  facturas : Int
  entregas : Int
  saldoAcumulado : Int
  paymentId : Option Nat
  invoiceId : Option Nat
deriving DecidableEq, Repr

structure StatementTotals where
  facturas : Int
  entregas : Int
  saldo : Int
deriving DecidableEq, Repr

structure Statement where
  clientId : Nat
  rows : List StatementRow
  totals : StatementTotals
deriving DecidableEq, Repr

/-- One row DTO of the statement, from one ledger row.  `invoices`,
`workOrders` and `payments` are the rows fetched for the statement's
invoice-id set, in insertion order (the store queries carry no ordering). -/
def mkStatementRow (invoices : List Invoice) (workOrders : List WorkOrder)
    (payments : List Payment) (e : AccountEntry) : StatementRow :=
  let debit := e.debit
  let credit := e.credit
  let balance := e.balanceAfter
  let invoice := invoices.find? fun inv => inv.id == e.invoiceId
  let order : Option WorkOrder :=
    match invoice with
    | some inv =>
      match inv.workOrderId with
      | some wid => workOrders.find? fun o => o.id == wid
      | none => none
    | none => none
  let defaultComp : String :=
    match invoice with
    | some inv => toString inv.id
    | none => ""
  if debit > 0 then
    { fecha := e.createdAt
      tipo := "FACTURA"
      compNro :=
        match order with
        | some o => o.displayCode.getD defaultComp
        | none => defaultComp
      ordenId := invoice.bind Invoice.workOrderId
      detalle :=
        match order with
        | some o =>
          match o.workType with
          | some wt => formatWorkTypeLabel (some wt)
          | none => "Factura emitida"
        | none => "Factura emitida"
      paciente :=
        match order with
        | some o => o.patientName.getD "-"
        | none => "-"
      facturas := debit
      entregas := credit
      saldoAcumulado := balance
      paymentId := none
      invoiceId := invoice.map Invoice.id }
  else if credit > 0 then
    let paymentMatch := payments.find? fun p =>
      decide (p.amount = credit) &&
      decide ((p.createdAt - e.createdAt).natAbs < 5000)
    { fecha := e.createdAt
      tipo := "PAGO"
      compNro := defaultComp
      ordenId := invoice.bind Invoice.workOrderId
      detalle :=
        match paymentMatch with
        | some p => if p.providerRef.length > 0 then p.providerRef else "Pago registrado"
        | none => "Pago registrado"
      paciente := "-"
      facturas := debit
      entregas := credit
      saldoAcumulado := balance
      paymentId := paymentMatch.map Payment.id
      invoiceId := invoice.map Invoice.id }
  else
    { fecha := e.createdAt
      tipo := "MOVIMIENTO"
      compNro := defaultComp
      ordenId := invoice.bind Invoice.workOrderId
      detalle := "Movimiento de cuenta"
      paciente := "-"
      facturas := debit
      entregas := credit
      saldoAcumulado := balance
      paymentId := none
      invoiceId := invoice.map Invoice.id }

/-- `getStatementByClient`: load the client's ledger rows in range in
chronological order, classify each row, and total debits and credits. -/
def getStatementByClient (db : DB) (clientId : Nat) (dateFrom dateTo : Option Int) :
    Except BillingError Statement :=
  if ¬ db.clients.contains clientId then .error .ClientNotFound
  else
    let inRange : AccountEntry → Bool := fun e =>
      (match dateFrom with
       | some f => decide (f ≤ e.createdAt)
       | none => true) &&
      (match dateTo with
       | some t => decide (e.createdAt ≤ endOfDayMs t)
       | none => true)
    let entries :=
      insSort entryLe (db.entries.filter fun e => e.clientId == clientId && inRange e)
    let invoiceIds := (entries.map AccountEntry.invoiceId).dedup
    let invoices := db.invoices.filter fun inv => invoiceIds.contains inv.id
    let workOrderIds := ((invoices.filterMap Invoice.workOrderId).dedup)
    let workOrders := db.workOrders.filter fun o => workOrderIds.contains o.id
    let payments := db.payments.filter fun p => invoiceIds.contains p.invoiceId
    let rows := entries.map (mkStatementRow invoices workOrders payments)
    let facturasTotal := (entries.map AccountEntry.debit).foldr (· + ·) 0
    let entregasTotal := (entries.map AccountEntry.credit).foldr (· + ·) 0
    .ok
      { clientId := clientId
        rows := rows
        totals :=
          { facturas := facturasTotal
            entregas := entregasTotal
            saldo := facturasTotal - entregasTotal } }

/-! ### Invariants and well-formedness -/

/-- The running-balance chain check: starting from `prev`, each row's
`balanceAfter` equals the previous balance plus its debit minus its credit. -/
def chainOk (prev : Int) : List AccountEntry → Bool
  | [] => true
  | e :: rest =>
    decide (e.balanceAfter = prev + e.debit - e.credit) && chainOk e.balanceAfter rest

/-- The ledger invariant for one client: over the client's entries ordered by
`(createdAt, id)`, `balanceAfter` is the running sum of `debit - credit`
from 0 (so the first row's balance is its own `debit - credit`). -/
def ledgerOk (db : DB) (clientId : Nat) : Bool :=
  chainOk 0 (clientEntries db clientId)

/-- The balance a chain starting at `prev` ends on. -/
def lastBalanceD (prev : Int) : List AccountEntry → Int
  | [] => prev
  | e :: rest => lastBalanceD e.balanceAfter rest

/-- Invoice-status invariant: an invoice is PAID exactly when the payments
recorded against it cover its amount. -/
def statusOk (db : DB) : Prop :=
  ∀ inv ∈ db.invoices, (inv.status = .PAID ↔ paymentsSum db inv.id ≥ inv.amount)

/-- Store well-formedness: ids are duplicate-free and below the allocation
counter, payment rows carry positive amounts and reference allocated
invoice ids.  Every state the store reaches through the embedded operations
satisfies this. -/
def WF (db : DB) : Prop :=
  (db.invoices.map Invoice.id).Nodup ∧
  (db.payments.map Payment.id).Nodup ∧
  (db.entries.map AccountEntry.id).Nodup ∧
  (∀ inv ∈ db.invoices, inv.id < db.nextId) ∧
  (∀ p ∈ db.payments, p.id < db.nextId ∧ p.invoiceId < db.nextId ∧ 0 < p.amount) ∧
  (∀ e ∈ db.entries, e.id < db.nextId)

instance : DecidablePred WF := fun db => by
  unfold WF
  infer_instance

instance : DecidablePred statusOk := fun db => by
  unfold statusOk
  infer_instance

/-! ### Lemmas on the stable insertion sort -/

theorem insertLe_perm (le : α → α → Bool) (x : α) (l : List α) :
    List.Perm (insertLe le x l) (x :: l) := by
  induction l with
  | nil => simp [insertLe]
  | cons y ys ih =>
    simp only [insertLe]
    by_cases h : le x y
    · simp [h]
    · simp only [h, if_false]
      exact (ih.cons y).trans (List.Perm.swap x y ys)

theorem insSort_perm (le : α → α → Bool) (l : List α) : List.Perm (insSort le l) l := by
  induction l with
  | nil => simp [insSort]
  | cons x xs ih =>
    exact (insertLe_perm le x (insSort le xs)).trans (ih.cons x)

theorem insertLe_append_single (le : α → α → Bool) (a x : α) (s : List α)
    (h : le a x = true) :
    insertLe le a (s ++ [x]) = insertLe le a s ++ [x] := by
  induction s with
  | nil => simp [insertLe, h]
  | cons y ys ih =>
    simp only [List.cons_append, insertLe]
    by_cases hy : le a y
    · simp [hy]
    · simp [hy, ih]

theorem insSort_append_max (le : α → α → Bool) (x : α) (l : List α)
    (htot : ∀ a b, le a b = false → le b a = true)
    (hmax : ∀ y ∈ l, le x y = false) :
    insSort le (l ++ [x]) = insSort le l ++ [x] := by
  induction l with
  | nil => simp [insSort, insertLe]
  | cons y ys ih =>
    have hy : le x y = false := hmax y (by simp)
    have hrest : ∀ z ∈ ys, le x z = false := fun z hz => hmax z (by simp [hz])
    have h1 : insSort le ((y :: ys) ++ [x]) = insertLe le y (insSort le (ys ++ [x])) := rfl
    rw [h1, ih hrest, insertLe_append_single le y x (insSort le ys) (htot x y hy)]
    rfl

theorem insertLe_map (le : α → α → Bool) (f : α → α) (x : α) (l : List α)
    (hf : ∀ a b, le (f a) (f b) = le a b) :
    insertLe le (f x) (l.map f) = (insertLe le x l).map f := by
  induction l with
  | nil => simp [insertLe]
  | cons y ys ih =>
    simp only [List.map_cons, insertLe, hf]
    by_cases h : le x y
    · simp [h]
    · simp [h, ih]

theorem insSort_map (le : α → α → Bool) (f : α → α) (l : List α)
    (hf : ∀ a b, le (f a) (f b) = le a b) :
    insSort le (l.map f) = (insSort le l).map f := by
  induction l with
  | nil => simp [insSort]
  | cons x xs ih =>
    simp only [List.map_cons, insSort, ih]
    exact insertLe_map le f x (insSort le xs) hf

theorem filter_map_comm (f : α → α) (p : α → Bool) (l : List α)
    (hf : ∀ a, p (f a) = p a) :
    (l.map f).filter p = (l.filter p).map f := by
  induction l with
  | nil => simp
  | cons x xs ih =>
    by_cases h : p x
    · simp [List.filter_cons, hf, h, ih]
    · simp [List.filter_cons, hf, h, ih]

/-- `entryLe` is total. -/
theorem entryLe_total (a b : AccountEntry) (h : entryLe a b = false) :
    entryLe b a = true := by
  simp only [entryLe, decide_eq_false_iff_not, decide_eq_true_eq, not_or, not_and] at h ⊢
  omega

/-- `invoiceLe` is total. -/
theorem invoiceLe_total (a b : Invoice) (h : invoiceLe a b = false) :
    invoiceLe b a = true := by
  simp only [invoiceLe, decide_eq_false_iff_not, decide_eq_true_eq, not_or, not_and] at h ⊢
  omega

/-! ### Lemmas on balance recomputation -/

/-- The client rows as `recomputeBalances` leaves them: every `balanceAfter`
replaced by the running sum from `prev`. -/
def replayList (prev : Int) : List AccountEntry → List AccountEntry
  | [] => []
  | e :: rest =>
    let b := prev + e.debit - e.credit
    { e with balanceAfter := b } :: replayList b rest

theorem chainOk_replayList (prev : Int) (l : List AccountEntry) :
    chainOk prev (replayList prev l) = true := by
  induction l generalizing prev with
  | nil => rfl
  | cons e rest ih => simp [replayList, chainOk, ih]

theorem applyBals_id (bals : List (Nat × Int)) (e : AccountEntry) :
    (applyBals bals e).id = e.id := by
  unfold applyBals
  cases lookupBal bals e.id <;> rfl

theorem applyBals_clientId (bals : List (Nat × Int)) (e : AccountEntry) :
    (applyBals bals e).clientId = e.clientId := by
  unfold applyBals
  cases lookupBal bals e.id <;> rfl

theorem applyBals_createdAt (bals : List (Nat × Int)) (e : AccountEntry) :
    (applyBals bals e).createdAt = e.createdAt := by
  unfold applyBals
  cases lookupBal bals e.id <;> rfl

theorem applyBals_debit (bals : List (Nat × Int)) (e : AccountEntry) :
    (applyBals bals e).debit = e.debit := by
  unfold applyBals
  cases lookupBal bals e.id <;> rfl

theorem applyBals_credit (bals : List (Nat × Int)) (e : AccountEntry) :
    (applyBals bals e).credit = e.credit := by
  unfold applyBals
  cases lookupBal bals e.id <;> rfl

theorem applyBals_cons_ne (p : Nat × Int) (bals : List (Nat × Int)) (e : AccountEntry)
    (h : ¬ e.id = p.fst) : applyBals (p :: bals) e = applyBals bals e := by
  unfold applyBals lookupBal
  rw [List.find?_cons_of_neg]
  simp [Ne.symm h]

theorem map_applyBals_replay (l : List AccountEntry) (prev : Int)
    (h : (l.map AccountEntry.id).Nodup) :
    l.map (applyBals (replay prev l)) = replayList prev l := by
  induction l generalizing prev with
  | nil => rfl
  | cons e rest ih =>
    simp only [List.map_cons, List.nodup_cons, List.mem_map] at h
    obtain ⟨hnot, hrest⟩ := h
    simp only [replay, replayList, List.map_cons]
    have hhead : applyBals ((e.id, prev + e.debit - e.credit) ::
        replay (prev + e.debit - e.credit) rest) e =
        { e with balanceAfter := prev + e.debit - e.credit } := by
      unfold applyBals lookupBal
      rw [List.find?_cons_of_pos _ (by simp)]
      rfl
    rw [hhead, List.map_congr_left (fun x hx => applyBals_cons_ne _ _ x
      (fun hc => hnot ⟨x, hx, hc⟩)), ih _ hrest]

theorem clientEntries_entries_map (db : DB) (c : Nat) (f : AccountEntry → AccountEntry)
    (hid : ∀ e, (f e).id = e.id) (hcl : ∀ e, (f e).clientId = e.clientId)
    (hca : ∀ e, (f e).createdAt = e.createdAt) :
    clientEntries { db with entries := db.entries.map f } c = (clientEntries db c).map f := by
  show insSort entryLe ((db.entries.map f).filter _) = _
  rw [filter_map_comm f _ _ (fun a => by simp [hcl]),
    insSort_map entryLe f _ (fun a b => by simp [entryLe, hid, hca])]
  rfl

theorem clientEntries_ids_nodup (db : DB) (c : Nat)
    (h : (db.entries.map AccountEntry.id).Nodup) :
    ((clientEntries db c).map AccountEntry.id).Nodup := by
  have hperm := (insSort_perm entryLe
    (db.entries.filter fun e => e.clientId == c)).map AccountEntry.id
  have hsub := (List.filter_sublist (l := db.entries)
    (p := fun e => e.clientId == c)).map AccountEntry.id
  exact hperm.nodup_iff.mpr (hsub.nodup h)

theorem clientEntries_recompute (db : DB) (c : Nat)
    (h : (db.entries.map AccountEntry.id).Nodup) :
    clientEntries (recomputeBalances db c) c = replayList 0 (clientEntries db c) := by
  unfold recomputeBalances
  rw [clientEntries_entries_map db c _ (applyBals_id _) (applyBals_clientId _)
    (applyBals_createdAt _)]
  exact map_applyBals_replay _ 0 (clientEntries_ids_nodup db c h)

theorem ledgerOk_recompute (db : DB) (c : Nat)
    (h : (db.entries.map AccountEntry.id).Nodup) :
    ledgerOk (recomputeBalances db c) c = true := by
  unfold ledgerOk
  rw [clientEntries_recompute db c h]
  exact chainOk_replayList 0 _

theorem replay_map (f : AccountEntry → AccountEntry) (l : List AccountEntry) (prev : Int)
    (hid : ∀ e, (f e).id = e.id) (hd : ∀ e, (f e).debit = e.debit)
    (hc : ∀ e, (f e).credit = e.credit) :
    replay prev (l.map f) = replay prev l := by
  induction l generalizing prev with
  | nil => rfl
  | cons e rest ih => simp [replay, hid, hd, hc, ih]

theorem applyBals_applyBals (bals : List (Nat × Int)) (e : AccountEntry) :
    applyBals bals (applyBals bals e) = applyBals bals e := by
  rcases h : lookupBal bals e.id with _ | b
  · have he : applyBals bals e = e := by
      unfold applyBals
      rw [h]
    rw [he, he]
  · have he : applyBals bals e = { e with balanceAfter := b } := by
      unfold applyBals
      rw [h]
    rw [he]
    unfold applyBals
    have h2 : lookupBal bals ({ e with balanceAfter := b } : AccountEntry).id = some b := h
    rw [h2]

theorem recompute_eq (db : DB) (c : Nat) :
    recomputeBalances db c =
    { db with entries := db.entries.map (applyBals (replay 0 (clientEntries db c))) } := rfl

theorem recomputeBalances_idem (db : DB) (c : Nat) :
    recomputeBalances (recomputeBalances db c) c = recomputeBalances db c := by
  have hbals : replay 0 (clientEntries (recomputeBalances db c) c) =
      replay 0 (clientEntries db c) := by
    rw [recompute_eq db c, clientEntries_entries_map db c _ (applyBals_id _)
      (applyBals_clientId _) (applyBals_createdAt _)]
    exact replay_map _ _ 0 (applyBals_id _) (applyBals_debit _) (applyBals_credit _)
  have h2 : (db.entries.map (applyBals (replay 0 (clientEntries db c)))).map
      (applyBals (replay 0 (clientEntries db c))) =
      db.entries.map (applyBals (replay 0 (clientEntries db c))) := by
    rw [List.map_map]
    exact List.map_congr_left fun e _ => applyBals_applyBals _ e
  rw [recompute_eq (recomputeBalances db c) c, hbals, recompute_eq db c]
  exact congrArg (fun l => ({ db with entries := l } : DB)) h2

/-! ### Lemmas on appending a ledger row -/

theorem chainOk_append_one (l : List AccountEntry) (prev : Int) (e : AccountEntry)
    (h : chainOk prev l = true)
    (hb : e.balanceAfter = lastBalanceD prev l + e.debit - e.credit) :
    chainOk prev (l ++ [e]) = true := by
  induction l generalizing prev with
  | nil =>
    simp only [lastBalanceD] at hb
    simp [chainOk, hb]
  | cons x rest ih =>
    simp only [chainOk, Bool.and_eq_true, decide_eq_true_eq] at h
    simp only [List.cons_append, chainOk, Bool.and_eq_true, decide_eq_true_eq]
    exact ⟨h.1, ih _ h.2 hb⟩

theorem lastBalanceD_getLast (l : List AccountEntry) : ∀ (prev : Int),
    lastBalanceD prev l =
      match l.getLast? with
      | some e => e.balanceAfter
      | none => prev := by
  induction l with
  | nil => intro prev; rfl
  | cons x rest ih =>
    intro prev
    cases rest with
    | nil => rfl
    | cons y t =>
      show lastBalanceD x.balanceAfter (y :: t) = _
      rw [List.getLast?_cons_cons]
      exact ih x.balanceAfter

theorem getLatestBalance_eq (db : DB) (c : Nat) :
    getLatestBalance db c = lastBalanceD 0 (clientEntries db c) := by
  rw [lastBalanceD_getLast]
  rfl

theorem clientEntries_congr (db db' : DB) (c : Nat) (h : db'.entries = db.entries) :
    clientEntries db' c = clientEntries db c := by
  unfold clientEntries
  rw [h]

theorem ledgerOk_congr (db db' : DB) (c : Nat) (h : db'.entries = db.entries) :
    ledgerOk db' c = ledgerOk db c := by
  unfold ledgerOk
  rw [clientEntries_congr db db' c h]

theorem clientEntries_append (db : DB) (c : Nat) (e : AccountEntry)
    (hc : e.clientId = c)
    (hmax : ∀ y ∈ db.entries, y.clientId = c → y.createdAt ≤ e.createdAt ∧ y.id < e.id) :
    clientEntries { db with entries := db.entries ++ [e] } c = clientEntries db c ++ [e] := by
  show insSort entryLe ((db.entries ++ [e]).filter _) = _
  rw [List.filter_append]
  have he : (([e]).filter fun x => x.clientId == c) = [e] := by simp [hc]
  rw [he]
  apply insSort_append_max entryLe e _ entryLe_total
  intro y hy
  rw [List.mem_filter] at hy
  obtain ⟨hy1, hy2⟩ := hy
  have hcy : y.clientId = c := by simpa using hy2
  have hm := hmax y hy1 hcy
  simp only [entryLe, decide_eq_false_iff_not, not_or, not_and]
  omega

/-- Appending one row whose balance was computed from the latest balance, at
a timestamp not earlier than every existing row of the client and with a
fresh id, preserves the ledger invariant. -/
theorem ledgerOk_of_append (db db' : DB) (c : Nat) (e : AccountEntry)
    (hE : db'.entries = db.entries ++ [e])
    (hc : e.clientId = c)
    (hbal : e.balanceAfter = getLatestBalance db c + e.debit - e.credit)
    (hmax : ∀ y ∈ db.entries, y.clientId = c → y.createdAt ≤ e.createdAt ∧ y.id < e.id)
    (hlok : ledgerOk db c = true) :
    ledgerOk db' c = true := by
  unfold ledgerOk
  have hce : clientEntries db' c = clientEntries db c ++ [e] := by
    rw [clientEntries_congr { db with entries := db.entries ++ [e] } db' c hE]
    exact clientEntries_append db c e hc hmax
  rw [hce]
  exact chainOk_append_one _ _ _ hlok (by rw [hbal, getLatestBalance_eq])

/-! ### Lemmas on the allocation loop -/

theorem setInvoiceStatus_entries (db : DB) (i : Nat) (st : InvoiceStatus) :
    (setInvoiceStatus db i st).entries = db.entries := rfl

theorem allocate_entries (s : List Payment) (d : Option Int) (n : Int) (note : String) :
    ∀ (lst : List Invoice) (r : Int) (db : DB),
      (allocate s d n note lst r db).1.entries = db.entries := by
  intro lst
  induction lst with
  | nil => intro r db; rfl
  | cons inv rest ih =>
    intro r db
    simp only [allocate]
    split_ifs
    all_goals first
      | rfl
      | exact ih _ _

theorem allocate_nextId (s : List Payment) (d : Option Int) (n : Int) (note : String) :
    ∀ (lst : List Invoice) (r : Int) (db : DB),
      db.nextId ≤ (allocate s d n note lst r db).1.nextId := by
  intro lst
  induction lst with
  | nil => intro r db; exact Nat.le_refl _
  | cons inv rest ih =>
    intro r db
    simp only [allocate]
    split_ifs
    all_goals first
      | exact Nat.le_refl _
      | exact ih _ _
      | (refine Nat.le_trans ?_ (ih _ _)
         exact Nat.le_succ _)

theorem allocate_payments (s : List Payment) (d : Option Int) (n : Int) (note : String) :
    ∀ (lst : List Invoice) (r : Int) (db : DB),
      (allocate s d n note lst r db).1.payments =
        db.payments ++ (allocate s d n note lst r db).2.1 := by
  intro lst
  induction lst with
  | nil => intro r db; exact (List.append_nil _).symm
  | cons inv rest ih =>
    intro r db
    simp only [allocate]
    split_ifs
    all_goals first
      | exact (List.append_nil _).symm
      | exact ih _ _
      | (rw [ih]; exact (List.append_cons _ _ _).symm)

theorem allocate_first (s : List Payment) (d : Option Int) (n : Int) (note : String) :
    ∀ (lst : List Invoice) (r : Int) (db : DB),
      (allocate s d n note lst r db).2.2 =
        ((allocate s d n note lst r db).2.1.head?).map Payment.invoiceId := by
  intro lst
  induction lst with
  | nil => intro r db; rfl
  | cons inv rest ih =>
    intro r db
    simp only [allocate]
    split_ifs
    all_goals first
      | rfl
      | exact ih _ _

/-- Functions on invoice rows that at most flip the status to PAID. -/
def statusFlipOnly (g : Invoice → Invoice) : Prop :=
  ∀ i, g i = i ∨ g i = { i with status := .PAID }

theorem statusFlipOnly_id {g : Invoice → Invoice} (hg : statusFlipOnly g) (i : Invoice) :
    (g i).id = i.id := by
  rcases hg i with h | h <;> rw [h]

theorem statusFlipOnly_clientId {g : Invoice → Invoice} (hg : statusFlipOnly g) (i : Invoice) :
    (g i).clientId = i.clientId := by
  rcases hg i with h | h <;> rw [h]

theorem statusFlipOnly_amount {g : Invoice → Invoice} (hg : statusFlipOnly g) (i : Invoice) :
    (g i).amount = i.amount := by
  rcases hg i with h | h <;> rw [h]

theorem statusFlipOnly_createdAt {g : Invoice → Invoice} (hg : statusFlipOnly g) (i : Invoice) :
    (g i).createdAt = i.createdAt := by
  rcases hg i with h | h <;> rw [h]

theorem statusFlipOnly_comp {g2 f1 : Invoice → Invoice}
    (h2 : statusFlipOnly g2) (h1 : statusFlipOnly f1) :
    statusFlipOnly (fun i => g2 (f1 i)) := by
  intro i
  show g2 (f1 i) = i ∨ g2 (f1 i) = { i with status := .PAID }
  rcases h1 i with h | h <;> rw [h]
  · exact h2 i
  · rcases h2 { i with status := .PAID } with h2' | h2' <;> rw [h2'] <;> exact Or.inr rfl

theorem invoices_shape_step {dbX db2 db : DB} {f1 : Invoice → Invoice}
    (hf1 : statusFlipOnly f1) (hdb2 : db2.invoices = db.invoices.map f1)
    (hex : ∃ g, statusFlipOnly g ∧ dbX.invoices = db2.invoices.map g) :
    ∃ g, statusFlipOnly g ∧ dbX.invoices = db.invoices.map g := by
  obtain ⟨g2, hg2, h2⟩ := hex
  refine ⟨fun i => g2 (f1 i), statusFlipOnly_comp hg2 hf1, ?_⟩
  rw [h2, hdb2, List.map_map]
  rfl

theorem allocate_invoices_shape (s : List Payment) (d : Option Int) (n : Int) (note : String) :
    ∀ (lst : List Invoice) (r : Int) (db : DB),
      ∃ g : Invoice → Invoice, statusFlipOnly g ∧
        (allocate s d n note lst r db).1.invoices = db.invoices.map g := by
  intro lst
  induction lst with
  | nil =>
    intro r db
    exact ⟨id, fun i => Or.inl rfl, (List.map_id _).symm⟩
  | cons inv rest ih =>
    intro r db
    have hflip : statusFlipOnly fun i =>
        if i.id == inv.id then { i with status := InvoiceStatus.PAID } else i := by
      intro i
      by_cases hid : i.id == inv.id
      · exact Or.inr (by simp [hid])
      · exact Or.inl (by simp [hid])
    simp only [allocate]
    split_ifs
    all_goals first
      | exact ⟨id, fun i => Or.inl rfl, (List.map_id _).symm⟩
      | exact ih _ _
      | exact invoices_shape_step hflip rfl (ih _ _)

/-! ### Per-operation ledger-invariant lemmas -/

theorem ledgerOk_createAccountEntry (dbB : DB) (c invId : Nat) (d cr t : Int)
    (hmax : ∀ y ∈ dbB.entries, y.clientId = c → y.createdAt ≤ t)
    (hfresh : ∀ y ∈ dbB.entries, y.id < dbB.nextId)
    (hlok : ledgerOk dbB c = true) :
    ledgerOk (createAccountEntry dbB c invId d cr t).1 c = true :=
  ledgerOk_of_append dbB _ c (createAccountEntry dbB c invId d cr t).2 rfl rfl rfl
    (fun y hy hc => ⟨hmax y hy hc, hfresh y hy⟩) hlok

theorem createInvoice_ledgerOk (db : DB) (now : Int) (orderId : Nat) (db' : DB) (inv : Invoice)
    (hfresh : ∀ y ∈ db.entries, y.id < db.nextId)
    (hE : createInvoiceFromOrder db now orderId = .ok (db', inv))
    (hmax : ∀ y ∈ db.entries, y.clientId = inv.clientId → y.createdAt ≤ now)
    (hlok : ledgerOk db inv.clientId = true) :
    ledgerOk db' inv.clientId = true := by
  simp only [createInvoiceFromOrder] at hE
  repeat' split at hE
  all_goals try exact Except.noConfusion hE
  all_goals (
    rw [Except.ok.injEq, Prod.mk.injEq] at hE
    obtain ⟨hdb', hinv⟩ := hE
    subst hdb'
    subst hinv
    exact ledgerOk_createAccountEntry _ _ _ _ _ _
      (fun y hy hc => hmax y hy hc)
      (fun y hy => Nat.lt_succ_of_lt (hfresh y hy))
      hlok)

theorem ledgerOk_createAccountEntry_of_base (dbB dbBase : DB) (c invId : Nat) (d cr t : Int)
    (hent : dbB.entries = dbBase.entries) (hnext : dbBase.nextId ≤ dbB.nextId)
    (hmax : ∀ y ∈ dbBase.entries, y.clientId = c → y.createdAt ≤ t)
    (hfresh : ∀ y ∈ dbBase.entries, y.id < dbBase.nextId)
    (hlok : ledgerOk dbBase c = true) :
    ledgerOk (createAccountEntry dbB c invId d cr t).1 c = true := by
  apply ledgerOk_createAccountEntry
  · intro y hy hc
    exact hmax y (hent ▸ hy) hc
  · intro y hy
    exact Nat.lt_of_lt_of_le (hfresh y (hent ▸ hy)) hnext
  · rw [ledgerOk_congr dbBase dbB c hent]
    exact hlok

theorem recordPayment_ledgerOk (db : DB) (now : Int) (c : Nat) (amount : Int)
    (date : Option Int) (note : String) (db' : DB) (ps : List Payment)
    (hfresh : ∀ y ∈ db.entries, y.id < db.nextId)
    (hE : recordPayment db now c amount date note = .ok (db', ps))
    (hmax : ∀ y ∈ db.entries, y.clientId = c → y.createdAt ≤ date.getD now)
    (hlok : ledgerOk db c = true) :
    ledgerOk db' c = true := by
  simp only [recordPayment] at hE
  repeat' split at hE
  all_goals try exact Except.noConfusion hE
  all_goals (
    rw [Except.ok.injEq, Prod.mk.injEq] at hE
    obtain ⟨hdb', hps⟩ := hE
    subst hdb')
  all_goals first
    | exact ledgerOk_createAccountEntry_of_base _ db _ _ _ _ _
        (allocate_entries _ _ _ _ _ _ _) (allocate_nextId _ _ _ _ _ _ _) hmax hfresh hlok
    | exact (ledgerOk_congr db _ _ (allocate_entries _ _ _ _ _ _ _)).trans hlok

theorem nodup_ids_map (l : List AccountEntry) (f : AccountEntry → AccountEntry)
    (hid : ∀ e, (f e).id = e.id) (h : (l.map AccountEntry.id).Nodup) :
    ((l.map f).map AccountEntry.id).Nodup := by
  rw [List.map_map, show (AccountEntry.id ∘ f) = AccountEntry.id from funext hid]
  exact h

theorem nodup_ids_filter (l : List AccountEntry) (p : AccountEntry → Bool)
    (h : (l.map AccountEntry.id).Nodup) :
    ((l.filter p).map AccountEntry.id).Nodup :=
  ((List.filter_sublist l).map AccountEntry.id).nodup h

theorem editInvoice_ledgerOk (db : DB) (invoiceId : Nat) (amountValue : Int) (db' : DB)
    (invoice : Invoice)
    (hnodup : (db.entries.map AccountEntry.id).Nodup)
    (hfind : db.invoices.find? (fun i => i.id == invoiceId) = some invoice)
    (hE : editInvoiceAmount db invoiceId amountValue = .ok db')
    (hprev : invoice.amount = amountValue → ledgerOk db invoice.clientId = true) :
    ledgerOk db' invoice.clientId = true := by
  simp only [editInvoiceAmount] at hE
  split at hE
  · exact Except.noConfusion hE
  split at hE
  · exact Except.noConfusion hE
  rename_i inv0 heq0
  rw [hfind, Option.some.injEq] at heq0
  subst heq0
  rw [Except.ok.injEq] at hE
  subst hE
  by_cases hAmt : invoice.amount = amountValue
  · rw [if_neg (not_not_intro hAmt)]
    exact (ledgerOk_congr db _ _ rfl).trans (hprev hAmt)
  · rw [if_pos hAmt]
    rcases hFD : findDebitEntry db.entries invoice.clientId invoice.id invoice.amount
        invoice.createdAt with _ | e0
    · exact (ledgerOk_congr _ _ _ rfl).trans (ledgerOk_recompute _ _ hnodup)
    · refine (ledgerOk_congr _ _ _ rfl).trans (ledgerOk_recompute _ _ ?_)
      exact nodup_ids_map db.entries _
        (fun e => by by_cases hb : (e.id == e0.id) = true <;> simp [hb]) hnodup

theorem deleteInvoice_ledgerOk (db : DB) (invoiceId : Nat) (db' : DB) (invoice : Invoice)
    (hnodup : (db.entries.map AccountEntry.id).Nodup)
    (hfind : db.invoices.find? (fun i => i.id == invoiceId) = some invoice)
    (hE : deleteInvoice db invoiceId = .ok db') :
    ledgerOk db' invoice.clientId = true := by
  simp only [deleteInvoice] at hE
  split at hE
  · exact Except.noConfusion hE
  rename_i inv0 heq0
  rw [hfind, Option.some.injEq] at heq0
  subst heq0
  rw [Except.ok.injEq] at hE
  subst hE
  exact ledgerOk_recompute _ _ (nodup_ids_filter _ _ hnodup)

theorem deletePayment_ledgerOk (db : DB) (paymentId : Nat) (db' : DB)
    (payment : Payment) (invoice : Invoice)
    (hnodup : (db.entries.map AccountEntry.id).Nodup)
    (hfindP : db.payments.find? (fun p => p.id == paymentId) = some payment)
    (hfindI : db.invoices.find? (fun i => i.id == payment.invoiceId) = some invoice)
    (hE : deletePayment db paymentId = .ok db') :
    ledgerOk db' invoice.clientId = true := by
  simp only [deletePayment] at hE
  split at hE
  · exact Except.noConfusion hE
  rename_i payment0 heqP
  rw [hfindP, Option.some.injEq] at heqP
  subst heqP
  split at hE
  · exact Except.noConfusion hE
  rename_i invoice0 heqI
  rw [hfindI, Option.some.injEq] at heqI
  subst heqI
  rw [Except.ok.injEq] at hE
  subst hE
  rcases hFC : findCreditEntry db.entries invoice.clientId invoice.id payment.amount
      payment.createdAt with _ | e0
  · split
    · exact (ledgerOk_congr _ _ _ rfl).trans (ledgerOk_recompute _ _ hnodup)
    · exact ledgerOk_recompute _ _ hnodup
  · split
    · exact (ledgerOk_congr _ _ _ rfl).trans
        (ledgerOk_recompute _ _ (nodup_ids_filter _ _ hnodup))
    · exact ledgerOk_recompute _ _ (nodup_ids_filter _ _ hnodup)

/-- Decidable equality for `Except` results, used to evaluate the embedded
operations at concrete inputs. -/
instance exceptDecEq {ε : Type u} {α : Type v} [DecidableEq ε] [DecidableEq α] :
    DecidableEq (Except ε α) := fun x y =>
  match x, y with
  | .error a, .error b =>
    if h : a = b then isTrue (by rw [h])
    else isFalse (by intro hc; cases hc; exact h rfl)
  | .error _, .ok _ => isFalse (fun hc => Except.noConfusion hc)
  | .ok _, .error _ => isFalse (fun hc => Except.noConfusion hc)
  | .ok a, .ok b =>
    if h : a = b then isTrue (by rw [h])
    else isFalse (by intro hc; cases hc; exact h rfl)

/-! ### Claim C1 -/

/-- Entry of the deleted-entry claims: every entry row strips to this for
comparisons that ignore the stored balance. -/
def stripBalance (e : AccountEntry) : AccountEntry :=
  { e with balanceAfter := 0 }

/-- A store holding one invoice (2750) and its debit entry at t = 1000000,
with a consistent ledger. -/
def backdateDB : DB :=
  { clients := [1]
    workOrders := []
    invoices := [{ id := 10, clientId := 1, workOrderId := none, amount := 2750,
                   currency := "ARS", status := .PENDING, createdAt := 1000000 }]
    payments := []
    entries := [{ id := 11, clientId := 1, invoiceId := 10, debit := 2750, credit := 0,
                  balanceAfter := 2750, createdAt := 1000000 }]
    nextId := 12 }

/-- C1 counterexample: the running-balance invariant does not hold after
every `recordPayment`.  On a consistent one-entry ledger, a payment of 500
backdated to t = 0 (the optional `date` argument) is inserted before the
existing entry in `(createdAt, id)` order, but its balance was computed
from the chronologically last row, so the replayed recurrence fails. -/
theorem ledger_invariant_backdated_payment_counterexample :
    ledgerOk backdateDB 1 = true ∧
    (recordPayment backdateDB 2000000 1 500 (some 0) "").map (fun r => ledgerOk r.1 1) =
      .ok false := by
  constructor
  · decide
  · decide

/-- C1 (amended): after each mutating operation the operated client's ledger
entries, ordered by `(createdAt, id)`, satisfy
`balanceAfter[i] = balanceAfter[i-1] + debit[i] - credit[i]` with
`balanceAfter[0] = debit[0] - credit[0]` (`ledgerOk`) — for `createInvoice`
and `recordPayment` under the proviso (forced by the counterexample) that
the new entry's timestamp is not earlier than an existing entry of that
client, for `editInvoiceAmount` provided the amount actually changed or the
invariant already held, and for `deleteInvoice`/`deletePayment`
unconditionally; entry ids are assumed duplicate-free and below the
allocation counter, as every reachable store keeps them. -/
theorem ledger_invariant_preserved_by_core_ops :
    (∀ (db : DB) (now : Int) (orderId : Nat) (db' : DB) (inv : Invoice),
      (∀ y ∈ db.entries, y.id < db.nextId) →
      createInvoiceFromOrder db now orderId = .ok (db', inv) →
      (∀ y ∈ db.entries, y.clientId = inv.clientId → y.createdAt ≤ now) →
      ledgerOk db inv.clientId = true →
      ledgerOk db' inv.clientId = true) ∧
    (∀ (db : DB) (now : Int) (c : Nat) (amount : Int) (date : Option Int) (note : String)
        (db' : DB) (ps : List Payment),
      (∀ y ∈ db.entries, y.id < db.nextId) →
      recordPayment db now c amount date note = .ok (db', ps) →
      (∀ y ∈ db.entries, y.clientId = c → y.createdAt ≤ date.getD now) →
      ledgerOk db c = true →
      ledgerOk db' c = true) ∧
    (∀ (db : DB) (invoiceId : Nat) (amountValue : Int) (db' : DB) (invoice : Invoice),
      (db.entries.map AccountEntry.id).Nodup →
      db.invoices.find? (fun i => i.id == invoiceId) = some invoice →
      editInvoiceAmount db invoiceId amountValue = .ok db' →
      (invoice.amount = amountValue → ledgerOk db invoice.clientId = true) →
      ledgerOk db' invoice.clientId = true) ∧
    (∀ (db : DB) (invoiceId : Nat) (db' : DB) (invoice : Invoice),
      (db.entries.map AccountEntry.id).Nodup →
      db.invoices.find? (fun i => i.id == invoiceId) = some invoice →
      deleteInvoice db invoiceId = .ok db' →
      ledgerOk db' invoice.clientId = true) ∧
    (∀ (db : DB) (paymentId : Nat) (db' : DB) (payment : Payment) (invoice : Invoice),
      (db.entries.map AccountEntry.id).Nodup →
      db.payments.find? (fun p => p.id == paymentId) = some payment →
      db.invoices.find? (fun i => i.id == payment.invoiceId) = some invoice →
      deletePayment db paymentId = .ok db' →
      ledgerOk db' invoice.clientId = true) :=
  ⟨fun db now orderId db' inv h1 h2 h3 h4 =>
      createInvoice_ledgerOk db now orderId db' inv h1 h2 h3 h4,
   fun db now c amount date note db' ps h1 h2 h3 h4 =>
      recordPayment_ledgerOk db now c amount date note db' ps h1 h2 h3 h4,
   fun db invoiceId amountValue db' invoice h1 h2 h3 h4 =>
      editInvoice_ledgerOk db invoiceId amountValue db' invoice h1 h2 h3 h4,
   fun db invoiceId db' invoice h1 h2 h3 =>
      deleteInvoice_ledgerOk db invoiceId db' invoice h1 h2 h3,
   fun db paymentId db' payment invoice h1 h2 h3 h4 =>
      deletePayment_ledgerOk db paymentId db' payment invoice h1 h2 h3 h4⟩

/-- Concrete instantiation of the amended C1 theorem: deleting the only
invoice of `backdateDB` leaves a (now empty) ledger satisfying the
invariant. -/
theorem ledger_invariant_preserved_witness :
    ledgerOk { clients := [1], workOrders := [], invoices := [], payments := [],
               entries := [], nextId := 12 } 1 = true :=
  ledger_invariant_preserved_by_core_ops.2.2.2.1 backdateDB 10
    { clients := [1], workOrders := [], invoices := [], payments := [], entries := [],
      nextId := 12 }
    { id := 10, clientId := 1, workOrderId := none, amount := 2750,
      currency := "ARS", status := .PENDING, createdAt := 1000000 }
    (by decide) (by decide) (by decide)

/-! ### Claim C4 -/

theorem stripBalance_applyBals (bals : List (Nat × Int)) (e : AccountEntry) :
    stripBalance (applyBals bals e) = stripBalance e := by
  unfold applyBals
  cases lookupBal bals e.id <;> rfl

/-- C4: `recomputeBalances` is idempotent — running it twice with no
intervening writes yields a store identical to running it once — and it
rewrites only the `balanceAfter` field of entry rows (all other tables and
fields are untouched); with duplicate-free entry ids the client's rows end
up exactly at the replayed running sums from 0 in `(createdAt, id)` order. -/
theorem recomputeBalances_idempotent :
    ∀ (db : DB) (clientId : Nat),
      recomputeBalances (recomputeBalances db clientId) clientId =
        recomputeBalances db clientId ∧
      (recomputeBalances db clientId).entries.map stripBalance =
        db.entries.map stripBalance ∧
      (recomputeBalances db clientId).invoices = db.invoices ∧
      (recomputeBalances db clientId).payments = db.payments ∧
      (recomputeBalances db clientId).clients = db.clients ∧
      (recomputeBalances db clientId).workOrders = db.workOrders ∧
      ((db.entries.map AccountEntry.id).Nodup →
        clientEntries (recomputeBalances db clientId) clientId =
          replayList 0 (clientEntries db clientId)) :=
  fun db clientId =>
    ⟨recomputeBalances_idem db clientId,
     by
      show (db.entries.map _).map stripBalance = _
      rw [List.map_map]
      exact List.map_congr_left fun e _ => stripBalance_applyBals _ e,
     rfl, rfl, rfl, rfl,
     fun h => clientEntries_recompute db clientId h⟩

/-- Concrete instantiation of C4 on `backdateDB` extended by one credit row:
a second recompute changes nothing and the Nodup-conditioned replay
equation holds. -/
theorem recomputeBalances_idempotent_witness :
    recomputeBalances (recomputeBalances backdateDB 1) 1 = recomputeBalances backdateDB 1 ∧
    clientEntries (recomputeBalances backdateDB 1) 1 = replayList 0 (clientEntries backdateDB 1) :=
  ⟨(recomputeBalances_idempotent backdateDB 1).1,
   (recomputeBalances_idempotent backdateDB 1).2.2.2.2.2.2 (by decide)⟩

/-! ### Claim C5 -/

/-- C5 doc: see theorem below. -/
def protOrder : WorkOrder :=
  { id := 5, dentistId := some 1, status := .DONE, workType := some .PROTESIS,
    price := none, displayCode := some "OT-5", patientName := some "Ana" }

/-- A store with one completed PROTESIS work order and an empty ledger. -/
def protesisOrderDB : DB :=
  { clients := [1]
    workOrders := [protOrder]
    invoices := []
    payments := []
    entries := []
    nextId := 10 }

/-- C5: `createInvoice` on a DONE/DELIVERED order with a resolvable billing
party and no existing invoice resolves the amount as the positive table
price, else the price stamped on the order, and fails with
`AmountUndetermined` when the resolved amount is non-positive; on success it
inserts a PENDING invoice of that amount, backfills an absent-or-zero order
price, and appends exactly one ledger debit entry equal to the amount,
extending the latest running balance. -/
theorem createInvoice_resolves_amount_and_appends_debit
    (db : DB) (now : Int) (orderId : Nat) (order : WorkOrder) (clientId : Nat)
    (horder : db.workOrders.find? (fun o => o.id == orderId) = some order)
    (hdent : order.dentistId = some clientId)
    (hstatus : order.status = .DONE ∨ order.status = .DELIVERED)
    (hnoinv : db.invoices.any (fun i => i.workOrderId == some order.id) = false) :
    (priceForWorkType order.workType ≤ 0 ∧ order.price.getD 0 ≤ 0 →
      createInvoiceFromOrder db now orderId = .error .AmountUndetermined) ∧
    (∀ finalAmount : Int,
      finalAmount = (if 0 < priceForWorkType order.workType
        then priceForWorkType order.workType else order.price.getD 0) →
      0 < finalAmount →
      ∃ db' inv,
        createInvoiceFromOrder db now orderId = .ok (db', inv) ∧
        inv.amount = finalAmount ∧ inv.status = .PENDING ∧ inv.clientId = clientId ∧
        inv.workOrderId = some order.id ∧
        db'.invoices = db.invoices ++ [inv] ∧
        (∃ e, db'.entries = db.entries ++ [e] ∧ e.debit = finalAmount ∧ e.credit = 0 ∧
          e.clientId = clientId ∧ e.invoiceId = inv.id ∧
          e.balanceAfter = getLatestBalance db clientId + finalAmount ∧
          e.createdAt = now) ∧
        ((order.price = none ∨ order.price = some 0) →
          ∀ o ∈ db'.workOrders, o.id = order.id → o.price = some finalAmount) ∧
        (¬ (order.price = none ∨ order.price = some 0) →
          db'.workOrders = db.workOrders)) := by
  have hcond : ¬ (order.status ≠ WorkOrderStatus.DONE ∧ order.status ≠ WorkOrderStatus.DELIVERED) := by
    rcases hstatus with h | h <;> simp [h]
  constructor
  · rintro ⟨h1, h2⟩
    simp only [createInvoiceFromOrder, horder, hdent, if_neg hcond, hnoinv]
    have hfa : ¬ (0 < priceForWorkType order.workType) := by omega
    rw [if_neg hfa, if_pos h2]
    simp
  · intro finalAmount hfa hpos
    simp only [createInvoiceFromOrder, horder, hdent, if_neg hcond, hnoinv]
    rw [← hfa]
    rw [if_neg (by omega : ¬ finalAmount ≤ 0)]
    by_cases hbf : order.price = none ∨ order.price = some 0
    · rw [if_pos hbf]
      refine ⟨_, _, rfl, rfl, rfl, rfl, rfl, rfl, ⟨_, rfl, rfl, rfl, rfl, rfl, ?_, rfl⟩, ?_, ?_⟩
      · show getLatestBalance db clientId + finalAmount - 0 = _
        omega
      · intro _ o ho hoid
        have ho2 : o ∈ db.workOrders.map (fun o0 =>
            if (o0.id == order.id) = true
            then { o0 with price := some finalAmount } else o0) := ho
        rw [List.mem_map] at ho2
        obtain ⟨o0, ho0, rfl⟩ := ho2
        by_cases hb : (o0.id == order.id) = true
        · simp only [hb, if_true]
        · rw [if_neg (by simpa using hb)] at hoid ⊢
          exact absurd hoid (by simpa using hb)
      · intro hc
        exact absurd hbf hc
    · rw [if_neg hbf]
      refine ⟨_, _, rfl, rfl, rfl, rfl, rfl, rfl, ⟨_, rfl, rfl, rfl, rfl, rfl, ?_, rfl⟩, ?_, ?_⟩
      · show getLatestBalance db clientId + finalAmount - 0 = _
        omega
      · intro hc
        exact absurd hc hbf
      · intro _
        rfl

/-- C5 witness (scenario 1): on `protesisOrderDB` (table price of PROTESIS
is 2750, no stamped price, empty ledger) the invoice amount is 2750 and one
debit entry 2750 lands at running balance 2750. -/
theorem createInvoice_scenario1_witness :
    ∃ db' inv, createInvoiceFromOrder protesisOrderDB 1000 5 = .ok (db', inv) ∧
      inv.amount = 2750 ∧ inv.status = .PENDING ∧
      ∃ e, db'.entries = [e] ∧ e.debit = 2750 ∧ e.balanceAfter = 2750 := by
  obtain ⟨db', inv, hok, ham, hst, _, _, _, ⟨e, he, hd, _, _, _, hb, _⟩, _, _⟩ :=
    (createInvoice_resolves_amount_and_appends_debit protesisOrderDB 1000 5
      protOrder 1 (by decide) (by decide) (Or.inl (by decide)) (by decide)).2
      2750 (by decide) (by decide)
  refine ⟨db', inv, hok, ham, hst, e, ?_, hd, ?_⟩
  · simpa using he
  · rw [hb]
    decide

/-! ### Claim C3 -/

theorem mostRecentInvoice_ids (db db1 : DB) (c : Nat) (g : Invoice → Invoice)
    (hg : statusFlipOnly g) (hinv : db1.invoices = db.invoices.map g) :
    (mostRecentInvoice db1 c).map Invoice.id = (mostRecentInvoice db c).map Invoice.id := by
  unfold mostRecentInvoice
  rw [hinv, filter_map_comm g _ _ (fun a => by simp [statusFlipOnly_clientId hg]),
      insSort_map invoiceLe g _ (fun a b => by
        simp [invoiceLe, statusFlipOnly_id hg, statusFlipOnly_createdAt hg]),
      List.getLast?_map, Option.map_map]
  cases (insSort invoiceLe (db.invoices.filter fun inv => inv.clientId == c)).getLast? with
  | none => rfl
  | some x => simp [statusFlipOnly_id hg x]

theorem mostRecentInvoice_eq_none (db : DB) (c : Nat) :
    mostRecentInvoice db c = none ↔
      db.invoices.filter (fun i => i.clientId == c) = [] := by
  unfold mostRecentInvoice
  rw [List.getLast?_eq_none_iff]
  constructor
  · intro h
    exact List.Perm.eq_nil ((insSort_perm invoiceLe _).symm.trans (h ▸ List.Perm.refl _))
  · intro h
    rw [h]
    rfl


theorem head?_none_nil (l : List Payment) (h : l.head? = none) : l = [] := by
  cases l
  · rfl
  · simp at h

theorem filter_and_nil (l : List Invoice) (c : Nat)
    (h : l.filter (fun i => i.clientId == c) = []) :
    l.filter (fun i => i.clientId == c && i.status == InvoiceStatus.PENDING) = [] := by
  rw [List.eq_nil_iff_forall_not_mem]
  intro x hx
  rw [List.mem_filter] at hx
  have hm : x ∈ l.filter (fun i => i.clientId == c) := by
    rw [List.mem_filter]
    refine ⟨hx.1, ?_⟩
    have h2 := hx.2
    simp only [Bool.and_eq_true] at h2
    exact h2.1
  rw [h] at hm
  exact absurd hm (List.not_mem_nil x)

/-- C3: a successful `recordPayment` appends at most one ledger credit row:
none exactly when the client has no invoices at all; otherwise exactly one,
carrying the full input amount as credit (regardless of how much was
allocated), attributed to the first invoice that received an allocation, or
to the client's most recent invoice when no payment row was created. -/
theorem recordPayment_single_credit_entry
    (db : DB) (now : Int) (c : Nat) (amount : Int) (date : Option Int) (note : String)
    (db' : DB) (created : List Payment)
    (hE : recordPayment db now c amount date note = .ok (db', created)) :
    (db.invoices.filter (fun i => i.clientId == c) = [] →
      db'.entries = db.entries ∧ created = []) ∧
    (db.invoices.filter (fun i => i.clientId == c) ≠ [] →
      ∃ e, db'.entries = db.entries ++ [e] ∧ e.credit = amount ∧ e.debit = 0 ∧
        e.clientId = c ∧
        (∀ p, created.head? = some p → e.invoiceId = p.invoiceId) ∧
        (created = [] → some e.invoiceId = (mostRecentInvoice db c).map Invoice.id)) := by
  simp only [recordPayment] at hE
  split at hE
  · exact Except.noConfusion hE
  split at hE
  · exact Except.noConfusion hE
  obtain ⟨g, hg, hinv⟩ := allocate_invoices_shape db.payments date now
    note (insSort invoiceLe
      (db.invoices.filter fun inv => inv.clientId == c && inv.status == InvoiceStatus.PENDING))
    amount db
  have hfst := allocate_first db.payments date now
    note (insSort invoiceLe
      (db.invoices.filter fun inv => inv.clientId == c && inv.status == InvoiceStatus.PENDING))
    amount db
  have hids := mostRecentInvoice_ids db _ c g hg hinv
  split at hE
  case _ invId heq =>
    rw [Except.ok.injEq, Prod.mk.injEq] at hE
    obtain ⟨hdb', hcr⟩ := hE
    subst hdb'
    subst hcr
    constructor
    · intro hfilter
      exfalso
      have hpend := filter_and_nil db.invoices c hfilter
      rw [hpend] at heq
      simp only [insSort, allocate] at heq
      rw [(mostRecentInvoice_eq_none db c).mpr hfilter] at heq
      simp at heq
    · intro _
      refine ⟨(createAccountEntry ((allocate db.payments date now note
          (insSort invoiceLe (db.invoices.filter fun inv =>
            inv.clientId == c && inv.status == InvoiceStatus.PENDING)) amount db).1)
          c invId 0 amount (date.getD now)).2, ?_, rfl, rfl, rfl, ?_, ?_⟩
      · show (allocate db.payments date now note
            (insSort invoiceLe (db.invoices.filter fun inv =>
              inv.clientId == c && inv.status == InvoiceStatus.PENDING)) amount db).1.entries
            ++ _ = db.entries ++ _
        rw [allocate_entries]
        rfl
      · intro p hp
        rcases hr : (allocate db.payments date now note
            (insSort invoiceLe (db.invoices.filter fun inv =>
              inv.clientId == c && inv.status == InvoiceStatus.PENDING)) amount db).2.2
            with _ | j
        · rw [hr] at hfst
          rw [hp] at hfst
          exact absurd hfst.symm (by simp)
        · rw [hr] at heq hfst
          simp only [Option.some.injEq] at heq
          subst heq
          rw [hp] at hfst
          simp only [Option.map_some', Option.some.injEq] at hfst
          exact hfst
      · intro hcr0
        rcases hr : (allocate db.payments date now note
            (insSort invoiceLe (db.invoices.filter fun inv =>
              inv.clientId == c && inv.status == InvoiceStatus.PENDING)) amount db).2.2
            with _ | j
        · rw [hr] at heq
          simp only at heq
          show some invId = _
          rw [← heq, hids]
        · rw [hr, hcr0] at hfst
          exact absurd hfst (by simp)
  case _ heq =>
    rcases hr : (allocate db.payments date now note
        (insSort invoiceLe (db.invoices.filter fun inv =>
          inv.clientId == c && inv.status == InvoiceStatus.PENDING)) amount db).2.2
        with _ | j
    case _ =>
      rw [hr] at heq hfst
      simp only at heq
      rw [Except.ok.injEq, Prod.mk.injEq] at hE
      obtain ⟨hdb', hcr⟩ := hE
      subst hdb'
      subst hcr
      have hnil := head?_none_nil _ (by
        rcases hh : (allocate db.payments date now note
            (insSort invoiceLe (db.invoices.filter fun inv =>
              inv.clientId == c && inv.status == InvoiceStatus.PENDING)) amount db).2.1.head?
            with _ | p
        · rfl
        · rw [hh] at hfst
          exact absurd hfst (by simp))
      constructor
      · intro _
        exact ⟨allocate_entries _ _ _ _ _ _ _, hnil⟩
      · intro hfilter
        exfalso
        rw [hids] at heq
        rw [Option.map_eq_none', mostRecentInvoice_eq_none] at heq
        exact hfilter heq
    case _ =>
      rw [hr] at heq
      exact absurd heq (by simp)

/-- The store after the C3 witness payment. -/
def afterPartialPaymentDB : DB :=
  { clients := [1]
    workOrders := []
    invoices := [{ id := 10, clientId := 1, workOrderId := none, amount := 2750,
                   currency := "ARS", status := .PENDING, createdAt := 1000000 }]
    payments := [{ id := 12, invoiceId := 10, provider := "MANUAL", providerRef := "",
                   amount := 500, status := .COMPLETED, createdAt := 2000000 }]
    entries := [{ id := 11, clientId := 1, invoiceId := 10, debit := 2750, credit := 0,
                  balanceAfter := 2750, createdAt := 1000000 },
                { id := 13, clientId := 1, invoiceId := 10, debit := 0, credit := 500,
                  balanceAfter := 2250, createdAt := 2000000 }]
    nextId := 14 }

/-- The payment row created by the C3 witness payment. -/
def partialPayment : Payment :=
  { id := 12, invoiceId := 10, provider := "MANUAL", providerRef := "",
    amount := 500, status := .COMPLETED, createdAt := 2000000 }

/-- C3 witness: paying 500 against `backdateDB` appends exactly one credit
row of the full amount, attributed to the allocated invoice. -/
theorem recordPayment_single_credit_entry_witness :
    ∃ e, afterPartialPaymentDB.entries = backdateDB.entries ++ [e] ∧ e.credit = 500 ∧
      e.debit = 0 ∧ e.clientId = 1 ∧
      (∀ p, [partialPayment].head? = some p → e.invoiceId = p.invoiceId) ∧
      ([partialPayment] = [] → some e.invoiceId = (mostRecentInvoice backdateDB 1).map Invoice.id) :=
  (recordPayment_single_credit_entry backdateDB 2000000 1 500 none ""
    afterPartialPaymentDB [partialPayment] (by decide)).2 (by decide)

/-! ### Claim C2 -/

/-- Refinement model written from the spec's words (§4.2), to be compared
with `allocate`: walk the pending invoices in order; for each,
`outstanding = amount - paid`; skip it when `outstanding ≤ 0`; otherwise
allocate `min(outstanding, remaining)` and mark the invoice PAID exactly
when the allocation fully covers `outstanding`; stop when `remaining`
reaches 0 or the invoices are exhausted.  Triples are
`(invoiceId, allocatedAmount, becomesPaid)`. -/
def allocationSpec : List (Nat × Int × Int) → Int → List (Nat × Int × Bool)
  | [], _ => []
  | (i, amount, paid) :: rest, remaining =>
    if remaining ≤ 0 then []
    else
      let outstanding := amount - paid
      if outstanding ≤ 0 then allocationSpec rest remaining
      else
        let applied := min outstanding remaining
        (i, applied, decide (applied = outstanding)) ::
          allocationSpec rest (remaining - applied)

theorem allocate_created_spec (s : List Payment) (d : Option Int) (n : Int) (note : String) :
    ∀ (lst : List Invoice) (r : Int) (db : DB),
      (allocate s d n note lst r db).2.1.map (fun p => (p.invoiceId, p.amount)) =
        (allocationSpec (lst.map fun i => (i.id, i.amount, paymentsSumIn s i.id)) r).map
          (fun t => (t.1, t.2.1)) := by
  intro lst
  induction lst with
  | nil => intro r db; rfl
  | cons inv rest ih =>
    intro r db
    have happ : (if inv.amount - paymentsSumIn s inv.id ≥ r then r
        else inv.amount - paymentsSumIn s inv.id) =
        min (inv.amount - paymentsSumIn s inv.id) r := by
      rw [Int.min_def]
      split_ifs <;> omega
    simp only [allocate, allocationSpec, List.map_cons]
    split_ifs with h1 h2
    · rfl
    · exact ih _ _
    all_goals (
      rw [List.map_cons]
      congr 1
      · rw [Prod.mk.injEq]
        exact ⟨rfl, by (try dsimp only); omega⟩
      · exact (ih _ _).trans (congrArg (fun x => (allocationSpec
          (rest.map fun i => (i.id, i.amount, paymentsSumIn s i.id)) x).map
          (fun t => (t.1, t.2.1))) (by (try dsimp only); omega)))

theorem allocationSpec_ids_sub : ∀ (l : List (Nat × Int × Int)) (r : Int),
    ∀ t ∈ allocationSpec l r, t.1 ∈ l.map (fun x => x.1) := by
  intro l
  induction l with
  | nil => intro r t ht; exact absurd ht (List.not_mem_nil t)
  | cons x rest ih =>
    intro r t ht
    obtain ⟨i, amount, paid⟩ := x
    simp only [allocationSpec] at ht
    split_ifs at ht with h1 h2
    · exact absurd ht (List.not_mem_nil t)
    · exact List.mem_cons_of_mem _ (ih _ t ht)
    · rcases List.mem_cons.mp ht with h | h
      · rw [h]; exact List.mem_cons_self _ _
      · exact List.mem_cons_of_mem _ (ih _ t h)

def invStatus (db : DB) (i : Nat) : Option InvoiceStatus :=
  (db.invoices.find? fun inv => inv.id == i).map Invoice.status

theorem find?_map_id_pres (f : Invoice → Invoice) (hid : ∀ x, (f x).id = x.id)
    (l : List Invoice) (i : Nat) :
    (l.map f).find? (fun inv => inv.id == i) = (l.find? (fun inv => inv.id == i)).map f := by
  induction l with
  | nil => rfl
  | cons x rest ih =>
    by_cases h : (x.id == i) = true
    · simp [List.find?_cons, hid, h]
    · simp [List.find?_cons, hid, h, ih]

theorem invStatus_set_ne (db : DB) (j : Nat) (st : InvoiceStatus) (i : Nat) (h : ¬ i = j) :
    invStatus (setInvoiceStatus db j st) i = invStatus db i := by
  unfold invStatus setInvoiceStatus
  rw [find?_map_id_pres _ (fun x => by by_cases hb : (x.id == j) = true <;> simp [hb])]
  cases hf : db.invoices.find? (fun inv => inv.id == i) with
  | none => rfl
  | some inv =>
    have hinv : inv.id = i := by simpa using List.find?_some hf
    simp [hinv, h]

theorem invStatus_set_self (db : DB) (j : Nat) (st : InvoiceStatus) (inv : Invoice)
    (hf : db.invoices.find? (fun i2 => i2.id == j) = some inv) :
    invStatus (setInvoiceStatus db j st) j = some st := by
  unfold invStatus setInvoiceStatus
  rw [find?_map_id_pres _ (fun x => by by_cases hb : (x.id == j) = true <;> simp [hb]), hf]
  have hinv : inv.id = j := by simpa using List.find?_some hf
  simp [hinv]

theorem allocate_flips (s : List Payment) (d : Option Int) (n : Int) (note : String) :
    ∀ (lst : List Invoice) (r : Int) (db : DB),
      (lst.map Invoice.id).Nodup →
      (∀ inv ∈ lst, invStatus db inv.id = some .PENDING) →
      (∀ t ∈ allocationSpec (lst.map fun i => (i.id, i.amount, paymentsSumIn s i.id)) r,
        invStatus (allocate s d n note lst r db).1 t.1 =
          some (if t.2.2 then InvoiceStatus.PAID else .PENDING)) ∧
      (∀ i, i ∉ (allocationSpec (lst.map fun i => (i.id, i.amount, paymentsSumIn s i.id)) r).map
          (fun t => t.1) →
        invStatus (allocate s d n note lst r db).1 i = invStatus db i) := by
  intro lst
  induction lst with
  | nil =>
    intro r db _ _
    exact ⟨fun t ht => absurd ht (List.not_mem_nil t), fun i _ => rfl⟩
  | cons inv rest ih =>
    intro r db hnodup hpend
    rw [List.map_cons, List.nodup_cons] at hnodup
    obtain ⟨hnotin, hnodup_rest⟩ := hnodup
    have hpend_head := hpend inv (List.mem_cons_self _ _)
    have hpend_tail : ∀ x ∈ rest, invStatus db x.id = some InvoiceStatus.PENDING :=
      fun x hx => hpend x (List.mem_cons_of_mem _ hx)
    have hxne : ∀ x ∈ rest, ¬ x.id = inv.id :=
      fun x hx hcc => hnotin (hcc ▸ List.mem_map_of_mem Invoice.id hx)
    obtain ⟨inv0, hinv0⟩ : ∃ inv0,
        db.invoices.find? (fun i2 => i2.id == inv.id) = some inv0 := by
      rcases hff : db.invoices.find? (fun i2 => i2.id == inv.id) with _ | z
      · unfold invStatus at hpend_head
        rw [hff] at hpend_head
        exact Option.noConfusion hpend_head
      · exact ⟨z, hff⟩
    simp only [List.map_cons, allocationSpec, allocate]
    split_ifs with h1 h2 h3 h4 h5
    · exact ⟨fun t ht => absurd ht (List.not_mem_nil t), fun i _ => rfl⟩
    · exact ih r db hnodup_rest hpend_tail
    -- branch: outstanding ≥ remaining, invoice fully covered (flip to PAID)
    · have hrem : r - (inv.amount - paymentsSumIn s inv.id) ⊓ r = r - r := by omega
      constructor
      · intro t ht
        rcases List.mem_cons.mp ht with hh | hh
        · subst hh
          dsimp only
          simp only [decide_eq_true_eq]
          rw [if_pos (by omega)]
          refine ((ih _ _ hnodup_rest ?_).2 inv.id ?_).trans ?_
          · intro x hx
            exact (invStatus_set_ne _ inv.id _ x.id (hxne x hx)).trans (hpend_tail x hx)
          · intro hmem
            obtain ⟨t2, ht2, hteq⟩ := List.mem_map.mp hmem
            have hsub := allocationSpec_ids_sub _ _ t2 ht2
            rw [List.map_map] at hsub
            exact hnotin (hteq ▸ hsub)
          · exact invStatus_set_self _ inv.id _ inv0 hinv0
        · refine (ih _ _ hnodup_rest ?_).1 t (hrem ▸ hh)
          intro x hx
          exact (invStatus_set_ne _ inv.id _ x.id (hxne x hx)).trans (hpend_tail x hx)
      · intro i hi
        rw [List.map_cons] at hi
        have hi1 : ¬ i = inv.id := fun hcc => hi (by rw [hcc]; exact List.mem_cons_self _ _)
        have hi2 : i ∉ _ := fun hmem => hi (List.mem_cons_of_mem _ hmem)
        refine ((ih _ _ hnodup_rest ?_).2 i (hrem ▸ hi2)).trans ?_
        · intro x hx
          exact (invStatus_set_ne _ inv.id _ x.id (hxne x hx)).trans (hpend_tail x hx)
        · exact invStatus_set_ne _ inv.id _ i hi1
    -- branch: outstanding ≥ remaining, not fully covered (stays PENDING)
    · have hrem : r - (inv.amount - paymentsSumIn s inv.id) ⊓ r = r - r := by omega
      constructor
      · intro t ht
        rcases List.mem_cons.mp ht with hh | hh
        · subst hh
          dsimp only
          simp only [decide_eq_true_eq]
          rw [if_neg (by omega)]
          refine ((ih _ _ hnodup_rest ?_).2 inv.id ?_).trans ?_
          · exact hpend_tail
          · intro hmem
            obtain ⟨t2, ht2, hteq⟩ := List.mem_map.mp hmem
            have hsub := allocationSpec_ids_sub _ _ t2 ht2
            rw [List.map_map] at hsub
            exact hnotin (hteq ▸ hsub)
          · exact hpend_head
        · refine (ih _ _ hnodup_rest ?_).1 t (hrem ▸ hh)
          exact hpend_tail
      · intro i hi
        rw [List.map_cons] at hi
        have hi2 : i ∉ _ := fun hmem => hi (List.mem_cons_of_mem _ hmem)
        refine Eq.trans ((ih _ _ hnodup_rest ?_).2 i (hrem ▸ hi2)) ?_
        · exact hpend_tail
        · rfl
    -- branch: outstanding < remaining (always fully covered, flip to PAID)
    · have hrem : r - (inv.amount - paymentsSumIn s inv.id) ⊓ r =
          r - (inv.amount - paymentsSumIn s inv.id) := by omega
      constructor
      · intro t ht
        rcases List.mem_cons.mp ht with hh | hh
        · subst hh
          dsimp only
          simp only [decide_eq_true_eq]
          rw [if_pos (by omega)]
          refine ((ih _ _ hnodup_rest ?_).2 inv.id ?_).trans ?_
          · intro x hx
            exact (invStatus_set_ne _ inv.id _ x.id (hxne x hx)).trans (hpend_tail x hx)
          · intro hmem
            obtain ⟨t2, ht2, hteq⟩ := List.mem_map.mp hmem
            have hsub := allocationSpec_ids_sub _ _ t2 ht2
            rw [List.map_map] at hsub
            exact hnotin (hteq ▸ hsub)
          · exact invStatus_set_self _ inv.id _ inv0 hinv0
        · refine (ih _ _ hnodup_rest ?_).1 t (hrem ▸ hh)
          intro x hx
          exact (invStatus_set_ne _ inv.id _ x.id (hxne x hx)).trans (hpend_tail x hx)
      · intro i hi
        rw [List.map_cons] at hi
        have hi1 : ¬ i = inv.id := fun hcc => hi (by rw [hcc]; exact List.mem_cons_self _ _)
        have hi2 : i ∉ _ := fun hmem => hi (List.mem_cons_of_mem _ hmem)
        refine ((ih _ _ hnodup_rest ?_).2 i (hrem ▸ hi2)).trans ?_
        · intro x hx
          exact (invStatus_set_ne _ inv.id _ x.id (hxne x hx)).trans (hpend_tail x hx)
        · exact invStatus_set_ne _ inv.id _ i hi1
    · exfalso
      omega

theorem find?_id_of_mem_nodup (l : List Invoice) (hn : (l.map Invoice.id).Nodup)
    (inv : Invoice) (h : inv ∈ l) :
    l.find? (fun i2 => i2.id == inv.id) = some inv := by
  induction l with
  | nil => exact absurd h (List.not_mem_nil inv)
  | cons x rest ih =>
    rw [List.map_cons, List.nodup_cons] at hn
    rcases List.mem_cons.mp h with hh | hh
    · subst hh
      simp [List.find?_cons]
    · have hne : (x.id == inv.id) = false := by
        simp only [beq_eq_false_iff_ne, ne_eq]
        intro hcc
        exact hn.1 (hcc ▸ List.mem_map_of_mem Invoice.id hh)
      simp [List.find?_cons, hne, ih hn.2 hh]

/-- The client's PENDING invoices in ascending `(createdAt, id)` order, as
`recordPayment` loads them. -/
def pendingOf (db : DB) (c : Nat) : List Invoice :=
  insSort invoiceLe (db.invoices.filter fun i => i.clientId == c && i.status == .PENDING)

theorem pendingOf_nodup (db : DB) (c : Nat) (h : (db.invoices.map Invoice.id).Nodup) :
    ((pendingOf db c).map Invoice.id).Nodup := by
  have hperm := (insSort_perm invoiceLe
    (db.invoices.filter fun i => i.clientId == c && i.status == .PENDING)).map Invoice.id
  have hsub := (List.filter_sublist (l := db.invoices)
    (p := fun i => i.clientId == c && i.status == .PENDING)).map Invoice.id
  exact hperm.nodup_iff.mpr (hsub.nodup h)

theorem pendingOf_status (db : DB) (c : Nat) (h : (db.invoices.map Invoice.id).Nodup) :
    ∀ inv ∈ pendingOf db c, invStatus db inv.id = some .PENDING := by
  intro inv hinv
  have hm := ((insSort_perm invoiceLe _).mem_iff).mp hinv
  rw [List.mem_filter] at hm
  obtain ⟨hmem, hpred⟩ := hm
  simp only [Bool.and_eq_true, beq_iff_eq] at hpred
  unfold invStatus
  rw [find?_id_of_mem_nodup db.invoices h inv hmem, Option.map_some', hpred.2]

/-- C2: a successful `recordPayment` creates exactly the payment rows the
spec's allocation rule dictates over the client's PENDING invoices in
ascending creation order (same invoices, same amounts, same order), flips
to PAID exactly the invoices the rule marks fully covered, leaves the rule's
uncovered invoices PENDING, and leaves every other invoice's status
untouched. -/
theorem recordPayment_allocation_refines_spec
    (db : DB) (now : Int) (c : Nat) (amount : Int) (date : Option Int) (note : String)
    (db' : DB) (created : List Payment)
    (hnodup : (db.invoices.map Invoice.id).Nodup)
    (hE : recordPayment db now c amount date note = .ok (db', created)) :
    created.map (fun p => (p.invoiceId, p.amount)) =
      (allocationSpec ((pendingOf db c).map fun i => (i.id, i.amount, paymentsSum db i.id))
        amount).map (fun t => (t.1, t.2.1)) ∧
    (∀ t ∈ allocationSpec ((pendingOf db c).map fun i => (i.id, i.amount, paymentsSum db i.id))
        amount,
      invStatus db' t.1 = some (if t.2.2 then InvoiceStatus.PAID else .PENDING)) ∧
    (∀ i, i ∉ (allocationSpec ((pendingOf db c).map fun i => (i.id, i.amount, paymentsSum db i.id))
        amount).map (fun t => t.1) →
      invStatus db' i = invStatus db i) := by
  have hcs := allocate_created_spec db.payments date now note (pendingOf db c) amount db
  have hfl := allocate_flips db.payments date now note (pendingOf db c) amount db
    (pendingOf_nodup db c hnodup) (pendingOf_status db c hnodup)
  simp only [recordPayment] at hE
  split at hE
  · exact Except.noConfusion hE
  split at hE
  · exact Except.noConfusion hE
  split at hE
  all_goals (
    rw [Except.ok.injEq, Prod.mk.injEq] at hE
    obtain ⟨hdb', hcr⟩ := hE
    subst hdb'
    subst hcr
    exact ⟨hcs, hfl.1, hfl.2⟩)

/-- Two PENDING invoices for client 7: A (id 20, amount 100, created first)
and B (id 21, amount 50, created later). -/
def twoInvoiceDB : DB :=
  { clients := [7]
    workOrders := []
    invoices := [{ id := 20, clientId := 7, workOrderId := none, amount := 100,
                   currency := "ARS", status := .PENDING, createdAt := 100 },
                 { id := 21, clientId := 7, workOrderId := none, amount := 50,
                   currency := "ARS", status := .PENDING, createdAt := 200 }]
    payments := []
    entries := []
    nextId := 30 }

/-- The store after `recordPayment(7, 120)` on `twoInvoiceDB`. -/
def twoInvoiceAfterDB : DB :=
  { clients := [7]
    workOrders := []
    invoices := [{ id := 20, clientId := 7, workOrderId := none, amount := 100,
                   currency := "ARS", status := .PAID, createdAt := 100 },
                 { id := 21, clientId := 7, workOrderId := none, amount := 50,
                   currency := "ARS", status := .PENDING, createdAt := 200 }]
    payments := [{ id := 30, invoiceId := 20, provider := "MANUAL", providerRef := "",
                   amount := 100, status := .COMPLETED, createdAt := 300 },
                 { id := 31, invoiceId := 21, provider := "MANUAL", providerRef := "",
                   amount := 20, status := .COMPLETED, createdAt := 300 }]
    entries := [{ id := 32, clientId := 7, invoiceId := 20, debit := 0, credit := 120,
                  balanceAfter := -120, createdAt := 300 }]
    nextId := 33 }

/-- The payment rows created by `recordPayment(7, 120)` on `twoInvoiceDB`. -/
def twoInvoicePayments : List Payment :=
  [{ id := 30, invoiceId := 20, provider := "MANUAL", providerRef := "",
     amount := 100, status := .COMPLETED, createdAt := 300 },
   { id := 31, invoiceId := 21, provider := "MANUAL", providerRef := "",
     amount := 20, status := .COMPLETED, createdAt := 300 }]

/-- C2 witness (the allocation-order scenario): paying 120 against A(100,
older) and B(50, newer) creates payment rows (A,100) then (B,20), flips A
to PAID, leaves B PENDING with outstanding 50 - 20 = 30. -/
theorem recordPayment_allocation_witness :
    twoInvoicePayments.map (fun p => (p.invoiceId, p.amount)) =
      (allocationSpec ((pendingOf twoInvoiceDB 7).map fun i =>
        (i.id, i.amount, paymentsSum twoInvoiceDB i.id)) 120).map (fun t => (t.1, t.2.1)) ∧
    invStatus twoInvoiceAfterDB 20 = some .PAID ∧
    invStatus twoInvoiceAfterDB 21 = some .PENDING ∧
    50 - paymentsSum twoInvoiceAfterDB 21 = 30 := by
  have h := recordPayment_allocation_refines_spec twoInvoiceDB 300 7 120 none ""
    twoInvoiceAfterDB twoInvoicePayments (by decide) (by decide)
  refine ⟨h.1, ?_, ?_, by decide⟩
  · have h2 := h.2.1 (20, 100, true) (by decide)
    simpa using h2
  · have h3 := h.2.1 (21, 20, false) (by decide)
    simpa using h3


/-! ### Claim C8 -/
open Dent

theorem sumAmounts_append (a b : List Payment) :
    sumAmounts (a ++ b) = sumAmounts a + sumAmounts b := by
  induction a with
  | nil => simp [sumAmounts]
  | cons x rest ih =>
    simp only [sumAmounts, List.cons_append, List.foldr_cons] at *
    omega

theorem paymentsSumIn_append (a b : List Payment) (i : Nat) :
    paymentsSumIn (a ++ b) i = paymentsSumIn a i + paymentsSumIn b i := by
  unfold paymentsSumIn
  rw [List.filter_append, sumAmounts_append]

theorem paymentsSumIn_not_mem (l : List Payment) (i : Nat)
    (h : i ∉ l.map Payment.invoiceId) : paymentsSumIn l i = 0 := by
  induction l with
  | nil => rfl
  | cons x rest ih =>
    rw [List.map_cons] at h
    have h1 : ¬ x.invoiceId = i := fun hc => h (hc ▸ List.mem_cons_self _ _)
    have h2 : i ∉ rest.map Payment.invoiceId := fun hm => h (List.mem_cons_of_mem _ hm)
    unfold paymentsSumIn at *
    rw [List.filter_cons_of_neg (by simpa using h1)]
    exact ih h2

/-- Total amount the spec-side allocation assigns to invoice `i`. -/
def specAllocSum (outs : List (Nat × Int × Bool)) (i : Nat) : Int :=
  ((outs.filter fun t => t.1 == i).map fun t => t.2.1).foldr (· + ·) 0

theorem paymentsSumIn_eq_specAllocSum (l1 : List Payment) (l2 : List (Nat × Int × Bool))
    (h : l1.map (fun p => (p.invoiceId, p.amount)) = l2.map (fun t => (t.1, t.2.1))) (i : Nat) :
    paymentsSumIn l1 i = specAllocSum l2 i := by
  induction l1 generalizing l2 with
  | nil =>
    cases l2 with
    | nil => rfl
    | cons y ys => exact absurd h (by simp)
  | cons x rest ih =>
    cases l2 with
    | nil => exact absurd h (by simp)
    | cons y ys =>
      simp only [List.map_cons, List.cons.injEq, Prod.mk.injEq] at h
      obtain ⟨⟨hid, hamt⟩, htl⟩ := h
      unfold paymentsSumIn specAllocSum at *
      simp only [List.filter_cons, ← hid, ← hamt]
      by_cases hc : (x.invoiceId == i) = true
      · simp only [hc, if_true, List.map_cons, ← hamt]
        unfold sumAmounts
        simp only [List.foldr_cons]
        have hih := ih ys htl
        unfold sumAmounts at hih
        omega
      · simp only [hc, if_false]
        exact ih ys htl

theorem allocationSpec_sound : ∀ (l : List (Nat × Int × Int)) (r : Int),
    ∀ t ∈ allocationSpec l r,
      ∃ x ∈ l, t.1 = x.1 ∧ 0 < t.2.1 ∧ t.2.1 ≤ x.2.1 - x.2.2 ∧
        (t.2.2 = true ↔ t.2.1 = x.2.1 - x.2.2) := by
  intro l
  induction l with
  | nil => intro r t ht; exact absurd ht (List.not_mem_nil t)
  | cons x rest ih =>
    intro r t ht
    obtain ⟨i, amount, paid⟩ := x
    simp only [allocationSpec] at ht
    split_ifs at ht with h1 h2
    · exact absurd ht (List.not_mem_nil t)
    · obtain ⟨z, hz, hp⟩ := ih _ t ht
      exact ⟨z, List.mem_cons_of_mem _ hz, hp⟩
    · rcases List.mem_cons.mp ht with hh | hh
      · subst hh
        refine ⟨(i, amount, paid), List.mem_cons_self _ _, rfl, ?_, ?_, ?_⟩
        · dsimp only
          omega
        · dsimp only
          omega
        · dsimp only
          simp only [decide_eq_true_eq]
      · obtain ⟨z, hz, hp⟩ := ih _ t hh
        exact ⟨z, List.mem_cons_of_mem _ hz, hp⟩

theorem allocationSpec_ids_sublist : ∀ (l : List (Nat × Int × Int)) (r : Int),
    ((allocationSpec l r).map (fun t => t.1)).Sublist (l.map (fun x => x.1)) := by
  intro l
  induction l with
  | nil => intro r; simp [allocationSpec]
  | cons x rest ih =>
    intro r
    obtain ⟨i, amount, paid⟩ := x
    simp only [allocationSpec]
    split_ifs with h1 h2
    · simp
    · exact (ih r).trans (List.sublist_cons_self _ _)
    · exact (ih _).cons₂ _

theorem specAllocSum_of_mem (outs : List (Nat × Int × Bool)) (t : Nat × Int × Bool)
    (hnodup : (outs.map (fun t => t.1)).Nodup) (hmem : t ∈ outs) :
    specAllocSum outs t.1 = t.2.1 := by
  induction outs with
  | nil => exact absurd hmem (List.not_mem_nil t)
  | cons y ys ih =>
    rw [List.map_cons, List.nodup_cons] at hnodup
    rcases List.mem_cons.mp hmem with hh | hh
    · subst hh
      unfold specAllocSum
      rw [List.filter_cons_of_pos (by simp)]
      have hrest : (ys.filter fun q => q.1 == t.1) = [] := by
        rw [List.eq_nil_iff_forall_not_mem]
        intro q hq
        rw [List.mem_filter] at hq
        have hq2 : q.1 = t.1 := by simpa using hq.2
        exact hnodup.1 (hq2 ▸ List.mem_map_of_mem (fun t => t.1) hq.1)
      rw [hrest]
      simp
    · have hne : ¬ y.1 = t.1 := fun hc =>
        hnodup.1 (hc ▸ List.mem_map_of_mem _ hh)
      unfold specAllocSum
      rw [List.filter_cons_of_neg (by simpa using hne)]
      exact ih hnodup.2 hh

theorem specAllocSum_not_mem (outs : List (Nat × Int × Bool)) (i : Nat)
    (h : i ∉ outs.map (fun t => t.1)) : specAllocSum outs i = 0 := by
  induction outs with
  | nil => rfl
  | cons y ys ih =>
    rw [List.map_cons] at h
    have h1 : ¬ y.1 = i := fun hc => h (hc ▸ List.mem_cons_self _ _)
    have h2 : i ∉ ys.map (fun t => t.1) := fun hm => h (List.mem_cons_of_mem _ hm)
    unfold specAllocSum at *
    simp only [List.filter_cons, beq_iff_eq, h1, if_false]
    exact ih h2

theorem mem_ids_nodup_eq (l : List Invoice) (hn : (l.map Invoice.id).Nodup)
    (a b : Invoice) (ha : a ∈ l) (hb : b ∈ l) (hid : a.id = b.id) : a = b := by
  have h1 := find?_id_of_mem_nodup l hn a ha
  have h2 := find?_id_of_mem_nodup l hn b hb
  rw [← hid] at h2
  rw [h1] at h2
  exact Option.some.inj h2

theorem filter_keep_other (l : List Payment) (iid j : Nat) (h : ¬ j = iid) :
    (l.filter fun p => ¬ p.invoiceId == iid).filter (fun p => p.invoiceId == j) =
      l.filter (fun p => p.invoiceId == j) := by
  rw [List.filter_filter]
  apply List.filter_congr
  intro a _
  by_cases hc : a.invoiceId = j
  · simp [hc, h]
  · simp [hc]

theorem createInvoice_statusOk (db : DB) (now : Int) (orderId : Nat) (db' : DB) (inv : Invoice)
    (hpinv : ∀ p ∈ db.payments, p.invoiceId < db.nextId)
    (hE : createInvoiceFromOrder db now orderId = .ok (db', inv))
    (hstat : statusOk db) : statusOk db' := by
  simp only [createInvoiceFromOrder] at hE
  repeat' split at hE
  all_goals try exact Except.noConfusion hE
  all_goals (
    rw [Except.ok.injEq, Prod.mk.injEq] at hE
    obtain ⟨hdb', hinv⟩ := hE
    subst hdb'
    intro r hr
    rcases List.mem_append.mp hr with h | h
    · exact hstat r h
    · have hre := List.mem_singleton.mp h
      subst hre
      have hsum : paymentsSumIn db.payments db.nextId = 0 := by
        apply paymentsSumIn_not_mem
        intro hm
        obtain ⟨p, hp, hpe⟩ := List.mem_map.mp hm
        have := hpinv p hp
        omega
      constructor
      · intro hpd
        exact InvoiceStatus.noConfusion hpd
      · intro hge
        exfalso
        dsimp only at hge
        have hge2 : paymentsSumIn db.payments db.nextId ≥ _ := hge
        rw [hsum] at hge2
        omega)

theorem deleteInvoice_statusOk (db : DB) (invoiceId : Nat) (db' : DB)
    (hE : deleteInvoice db invoiceId = .ok db')
    (hstat : statusOk db) : statusOk db' := by
  simp only [deleteInvoice] at hE
  split at hE
  · exact Except.noConfusion hE
  rw [Except.ok.injEq] at hE
  subst hE
  intro r hr
  have hr2 : r ∈ db.invoices.filter (fun i2 => ¬ i2.id == invoiceId) := hr
  rw [List.mem_filter] at hr2
  obtain ⟨hmem, hpred⟩ := hr2
  have hne : ¬ r.id = invoiceId := by simpa using hpred
  have hsum : paymentsSumIn (db.payments.filter fun p => ¬ p.invoiceId == invoiceId) r.id =
      paymentsSumIn db.payments r.id := by
    unfold paymentsSumIn
    rw [filter_keep_other db.payments invoiceId r.id hne]
  show r.status = .PAID ↔
    paymentsSumIn (db.payments.filter fun p => ¬ p.invoiceId == invoiceId) r.id ≥ r.amount
  rw [hsum]
  exact hstat r hmem

theorem setStatus_statusOk_core (dbM : DB) (invoiceId : Nat) (amountValue : Int)
    (hMamt : ∀ i ∈ dbM.invoices, i.id = invoiceId → i.amount = amountValue)
    (hMstat : ∀ i ∈ dbM.invoices, ¬ i.id = invoiceId →
        (i.status = .PAID ↔ paymentsSum dbM i.id ≥ i.amount)) :
    statusOk (setInvoiceStatus dbM invoiceId
      (if paymentsSum dbM invoiceId ≥ amountValue then .PAID else .PENDING)) := by
  have hpay : ∀ st j, paymentsSum (setInvoiceStatus dbM invoiceId st) j = paymentsSum dbM j :=
    fun st j => rfl
  intro r hr
  obtain ⟨r0, hr0, hre⟩ := List.mem_map.mp hr
  try dsimp only at hre
  by_cases hid : r0.id = invoiceId
  · have hbe : (r0.id == invoiceId) = true := by simpa using hid
    rw [if_pos hbe] at hre
    subst hre
    dsimp only
    rw [hid, hMamt r0 hr0 hid, hpay]
    by_cases hp : paymentsSum dbM invoiceId ≥ amountValue
    · rw [if_pos hp]
      exact iff_of_true rfl hp
    · rw [if_neg hp]
      exact iff_of_false (fun hc => InvoiceStatus.noConfusion hc) hp
  · have hbe : ¬ (r0.id == invoiceId) = true := by simpa using hid
    rw [if_neg hbe] at hre
    subst hre
    rw [hpay]
    exact hMstat r0 hr0 hid

theorem editInvoice_statusOk (db : DB) (invoiceId : Nat) (amountValue : Int) (db' : DB)
    (invoice : Invoice)
    (hnodup : (db.invoices.map Invoice.id).Nodup)
    (hfind : db.invoices.find? (fun i => i.id == invoiceId) = some invoice)
    (hE : editInvoiceAmount db invoiceId amountValue = .ok db')
    (hstat : statusOk db) : statusOk db' := by
  simp only [editInvoiceAmount] at hE
  split at hE
  · exact Except.noConfusion hE
  split at hE
  · exact Except.noConfusion hE
  rename_i inv0 heq0
  rw [hfind, Option.some.injEq] at heq0
  subst heq0
  rw [Except.ok.injEq] at hE
  subst hE
  by_cases hAmt : invoice.amount = amountValue
  · rw [if_neg (not_not_intro hAmt)]
    apply setStatus_statusOk_core
    · intro i hi hiid
      have hieq : i = invoice := by
        apply mem_ids_nodup_eq db.invoices hnodup i invoice hi (List.mem_of_find?_eq_some hfind)
        rw [hiid]
        have h3 : invoice.id = invoiceId := by simpa using List.find?_some hfind
        exact h3.symm
      rw [hieq]
      exact hAmt
    · intro i hi hiid
      exact hstat i hi
  · rw [if_pos hAmt]
    rcases hFD : findDebitEntry db.entries invoice.clientId invoice.id invoice.amount
        invoice.createdAt with _ | e0
    all_goals (
      apply setStatus_statusOk_core
      · intro i hi hiid
        have hi2 : i ∈ db.invoices.map (fun inv =>
            if inv.id == invoiceId then { inv with amount := amountValue } else inv) := hi
        obtain ⟨i0, hi0, hie⟩ := List.mem_map.mp hi2
        try dsimp only at hie
        by_cases hb : i0.id = invoiceId
        · have hbe : (i0.id == invoiceId) = true := by simpa using hb
          rw [if_pos hbe] at hie
          subst hie
          rfl
        · have hbe : ¬ (i0.id == invoiceId) = true := by simpa using hb
          rw [if_neg hbe] at hie
          subst hie
          exact absurd hiid hb
      · intro i hi hiid
        have hi2 : i ∈ db.invoices.map (fun inv =>
            if inv.id == invoiceId then { inv with amount := amountValue } else inv) := hi
        obtain ⟨i0, hi0, hie⟩ := List.mem_map.mp hi2
        try dsimp only at hie
        by_cases hb : i0.id = invoiceId
        · have hbe : (i0.id == invoiceId) = true := by simpa using hb
          rw [if_pos hbe] at hie
          subst hie
          exact absurd hb hiid
        · have hbe : ¬ (i0.id == invoiceId) = true := by simpa using hb
          rw [if_neg hbe] at hie
          subst hie
          exact hstat i0 hi0)

theorem paymentsSumIn_cons (x : Payment) (l : List Payment) (j : Nat) :
    paymentsSumIn (x :: l) j =
      (if x.invoiceId = j then x.amount else 0) + paymentsSumIn l j := by
  by_cases hc : x.invoiceId = j
  · simp [paymentsSumIn, sumAmounts, List.filter_cons, hc]
  · simp [paymentsSumIn, sumAmounts, List.filter_cons, hc]

theorem paymentsSumIn_filter_erase (l : List Payment) (pid : Nat) (payment : Payment)
    (hn : (l.map Payment.id).Nodup)
    (hf : l.find? (fun p => p.id == pid) = some payment) (j : Nat) :
    paymentsSumIn (l.filter fun p => ¬ p.id == pid) j =
      paymentsSumIn l j - (if payment.invoiceId = j then payment.amount else 0) := by
  induction l with
  | nil => exact Option.noConfusion hf
  | cons x rest ih =>
    rw [List.map_cons, List.nodup_cons] at hn
    by_cases hx : x.id = pid
    · have hb : (x.id == pid) = true := by simpa using hx
      simp only [List.find?_cons, hb, Option.some.injEq] at hf
      have hfilter : (x :: rest).filter (fun p => ¬ p.id == pid) =
          rest.filter (fun p => ¬ p.id == pid) := by
        simp [List.filter_cons, hx]
      have hrest : rest.filter (fun p => ¬ p.id == pid) = rest := by
        apply List.filter_eq_self.mpr
        intro a ha
        simp only [decide_eq_true_eq, beq_iff_eq]
        intro hc
        apply hn.1
        rw [← hx] at hc
        exact hc ▸ List.mem_map_of_mem Payment.id ha
      rw [hfilter, hrest, ← hf, paymentsSumIn_cons]
      by_cases hj : x.invoiceId = j <;> simp [hj] <;> omega
    · have hbf : (x.id == pid) = false := by simpa using hx
      simp only [List.find?_cons, hbf] at hf
      have hfilter : (x :: rest).filter (fun p => ¬ p.id == pid) =
          x :: rest.filter (fun p => ¬ p.id == pid) := by
        simp [List.filter_cons, hx]
      rw [hfilter, paymentsSumIn_cons, paymentsSumIn_cons, ih hn.2 hf]
      by_cases hj : x.invoiceId = j <;> simp [hj] <;> omega

theorem deletePayment_statusOk_core (db dbR : DB) (invoice : Invoice) (payment : Payment)
    (hRinv : dbR.invoices = db.invoices)
    (hIN : invoice ∈ db.invoices)
    (hNod : (db.invoices.map Invoice.id).Nodup)
    (hiid : invoice.id = payment.invoiceId)
    (hppos : 0 < payment.amount)
    (hRsum : ∀ j, paymentsSum dbR j =
      paymentsSum db j - (if payment.invoiceId = j then payment.amount else 0))
    (hstat : statusOk db) :
    statusOk (if paymentsSum dbR invoice.id < invoice.amount
      then setInvoiceStatus dbR invoice.id .PENDING else dbR) := by
  by_cases hC : paymentsSum dbR invoice.id < invoice.amount
  · rw [if_pos hC]
    intro r hr
    obtain ⟨r0, hr0, hre⟩ := List.mem_map.mp hr
    try dsimp only at hre
    rw [hRinv] at hr0
    by_cases hid : r0.id = invoice.id
    · have hr0e : r0 = invoice := mem_ids_nodup_eq db.invoices hNod r0 invoice hr0 hIN hid
      subst hr0e
      have hbe : (r0.id == r0.id) = true := by simp
      rw [if_pos hbe] at hre
      subst hre
      refine iff_of_false (fun hc => InvoiceStatus.noConfusion hc) ?_
      show ¬ paymentsSum (setInvoiceStatus dbR r0.id .PENDING) r0.id ≥ r0.amount
      intro hge
      have hpay2 : paymentsSum (setInvoiceStatus dbR r0.id .PENDING) r0.id =
          paymentsSum dbR r0.id := rfl
      rw [hpay2] at hge
      omega
    · have hbe : ¬ (r0.id == invoice.id) = true := by simpa using hid
      rw [if_neg hbe] at hre
      subst hre
      show r0.status = .PAID ↔ paymentsSum (setInvoiceStatus dbR invoice.id .PENDING) r0.id ≥ r0.amount
      have hpay2 : paymentsSum (setInvoiceStatus dbR invoice.id .PENDING) r0.id =
          paymentsSum dbR r0.id := rfl
      have hnc : ¬ payment.invoiceId = r0.id := by
        rw [← hiid]
        intro hc
        exact hid hc.symm
      rw [hpay2, hRsum r0.id, if_neg hnc, sub_zero]
      exact hstat r0 hr0
  · rw [if_neg hC]
    intro r hr
    have hr0 : r ∈ db.invoices := by rw [← hRinv]; exact hr
    by_cases hid : r.id = invoice.id
    · have hre : r = invoice := mem_ids_nodup_eq db.invoices hNod r invoice hr0 hIN hid
      subst hre
      have hs := hRsum r.id
      rw [if_pos hiid.symm] at hs
      have hge : r.amount ≤ paymentsSum dbR r.id := not_lt.mp hC
      refine iff_of_true ((hstat r hr0).mpr ?_) hge
      omega
    · have hnc : ¬ payment.invoiceId = r.id := by
        rw [← hiid]
        intro hc
        exact hid hc.symm
      rw [hRsum r.id, if_neg hnc, sub_zero]
      exact hstat r hr0

theorem deletePayment_statusOk (db : DB) (paymentId : Nat) (db' : DB)
    (payment : Payment) (invoice : Invoice)
    (hnodupI : (db.invoices.map Invoice.id).Nodup)
    (hnodupP : (db.payments.map Payment.id).Nodup)
    (hpos : ∀ p ∈ db.payments, 0 < p.amount)
    (hfindP : db.payments.find? (fun p => p.id == paymentId) = some payment)
    (hfindI : db.invoices.find? (fun i => i.id == payment.invoiceId) = some invoice)
    (hE : deletePayment db paymentId = .ok db')
    (hstat : statusOk db) : statusOk db' := by
  simp only [deletePayment] at hE
  split at hE
  · exact Except.noConfusion hE
  rename_i payment0 heqP
  rw [hfindP, Option.some.injEq] at heqP
  subst heqP
  split at hE
  · exact Except.noConfusion hE
  rename_i invoice0 heqI
  rw [hfindI, Option.some.injEq] at heqI
  subst heqI
  rw [Except.ok.injEq] at hE
  subst hE
  rcases hFC : findCreditEntry db.entries invoice.clientId invoice.id payment.amount
      payment.createdAt with _ | e0
  all_goals (
    have hinv2 : invoice.id = payment.invoiceId := by simpa using List.find?_some hfindI
    have hpm : payment ∈ db.payments := List.mem_of_find?_eq_some hfindP
    refine deletePayment_statusOk_core db _ invoice payment ?_
      (List.mem_of_find?_eq_some hfindI) hnodupI hinv2 (hpos payment hpm) ?_ hstat
    · rfl
    · intro j
      exact paymentsSumIn_filter_erase db.payments paymentId payment hnodupP hfindP j)

theorem recordPayment_statusOk_core (db dbA : DB) (c : Nat) (amount : Int)
    (created : List Payment)
    (hnodup : (db.invoices.map Invoice.id).Nodup)
    (hinvs : ∃ g, statusFlipOnly g ∧ dbA.invoices = db.invoices.map g)
    (hpays : dbA.payments = db.payments ++ created)
    (hcs : created.map (fun p => (p.invoiceId, p.amount)) =
      (allocationSpec ((pendingOf db c).map fun i => (i.id, i.amount, paymentsSum db i.id))
        amount).map (fun t => (t.1, t.2.1)))
    (hflips : ∀ t ∈ allocationSpec ((pendingOf db c).map fun i =>
        (i.id, i.amount, paymentsSum db i.id)) amount,
      invStatus dbA t.1 = some (if t.2.2 then InvoiceStatus.PAID else .PENDING))
    (hother : ∀ i, i ∉ (allocationSpec ((pendingOf db c).map fun i =>
        (i.id, i.amount, paymentsSum db i.id)) amount).map (fun t => t.1) →
      invStatus dbA i = invStatus db i)
    (hstat : statusOk db) : statusOk dbA := by
  obtain ⟨g, hg, hginv⟩ := hinvs
  have hids : dbA.invoices.map Invoice.id = db.invoices.map Invoice.id := by
    rw [hginv, List.map_map]
    exact List.map_congr_left (fun a ha => statusFlipOnly_id hg a)
  have hnodupA : (dbA.invoices.map Invoice.id).Nodup := by
    rw [hids]
    exact hnodup
  have hsum : ∀ j, paymentsSum dbA j = paymentsSum db j +
      specAllocSum (allocationSpec ((pendingOf db c).map fun i =>
        (i.id, i.amount, paymentsSum db i.id)) amount) j := by
    intro j
    show paymentsSumIn dbA.payments j = _
    rw [hpays, paymentsSumIn_append, paymentsSumIn_eq_specAllocSum created _ hcs j]
    rfl
  have hSnodup : ((allocationSpec ((pendingOf db c).map fun i =>
      (i.id, i.amount, paymentsSum db i.id)) amount).map (fun t => t.1)).Nodup := by
    have hsub := allocationSpec_ids_sublist ((pendingOf db c).map fun i =>
      (i.id, i.amount, paymentsSum db i.id)) amount
    rw [List.map_map] at hsub
    exact hsub.nodup (pendingOf_nodup db c hnodup)
  intro r hr
  rw [hginv] at hr
  obtain ⟨r0, hr0, hre⟩ := List.mem_map.mp hr
  subst hre
  have hrA : g r0 ∈ dbA.invoices := by
    rw [hginv]
    exact List.mem_map_of_mem g hr0
  have hsr : invStatus dbA (g r0).id = some (g r0).status := by
    unfold invStatus
    rw [find?_id_of_mem_nodup dbA.invoices hnodupA (g r0) hrA, Option.map_some']
  have hsr0 : invStatus db r0.id = some r0.status := by
    unfold invStatus
    rw [find?_id_of_mem_nodup db.invoices hnodup r0 hr0, Option.map_some']
  rw [statusFlipOnly_id hg r0] at hsr
  rw [statusFlipOnly_id hg r0, statusFlipOnly_amount hg r0]
  by_cases hmem : r0.id ∈ (allocationSpec ((pendingOf db c).map fun i =>
      (i.id, i.amount, paymentsSum db i.id)) amount).map (fun t => t.1)
  · obtain ⟨t, htS, hteq⟩ := List.mem_map.mp hmem
    have hflip := hflips t htS
    rw [hteq] at hflip
    have hstat2 : (g r0).status = (if t.2.2 then InvoiceStatus.PAID else .PENDING) :=
      Option.some.inj (hsr.symm.trans hflip)
    have hsound := allocationSpec_sound ((pendingOf db c).map fun i =>
      (i.id, i.amount, paymentsSum db i.id)) amount t htS
    obtain ⟨x, hxmem, hx1, hxpos, hxle, hxiff⟩ := hsound
    obtain ⟨i0, hi0L, hi0x⟩ := List.mem_map.mp hxmem
    have hi0mem : i0 ∈ db.invoices := by
      have hmm := ((insSort_perm invoiceLe _).mem_iff).mp hi0L
      exact (List.mem_filter.mp hmm).1
    have hid0 : r0.id = i0.id := by rw [← hteq, hx1, ← hi0x]
    have hr0i0 : r0 = i0 := mem_ids_nodup_eq db.invoices hnodup r0 i0 hr0 hi0mem hid0
    subst hr0i0
    have hxamt : x.2.1 = r0.amount := by rw [← hi0x]
    have hxpaid : x.2.2 = paymentsSum db r0.id := by rw [← hi0x]
    have hs := hsum r0.id
    have hspec : specAllocSum (allocationSpec ((pendingOf db c).map fun i =>
        (i.id, i.amount, paymentsSum db i.id)) amount) r0.id = t.2.1 := by
      have h5 := specAllocSum_of_mem (allocationSpec ((pendingOf db c).map fun i =>
        (i.id, i.amount, paymentsSum db i.id)) amount) t hSnodup htS
      rw [hteq] at h5
      exact h5
    rw [hstat2, hs, hspec]
    by_cases hb : t.2.2 = true
    · rw [if_pos hb]
      have ht21 : t.2.1 = x.2.1 - x.2.2 := hxiff.mp hb
      rw [hxamt, hxpaid] at ht21
      refine iff_of_true rfl ?_
      omega
    · rw [if_neg hb]
      have hlt : t.2.1 < x.2.1 - x.2.2 := by
        rcases lt_or_eq_of_le hxle with h7 | h7
        · exact h7
        · exact absurd (hxiff.mpr h7) hb
      rw [hxamt, hxpaid] at hlt
      refine iff_of_false (fun hc => InvoiceStatus.noConfusion hc) ?_
      intro hge
      omega
  · have hoth := hother r0.id hmem
    rw [hsr0] at hoth
    have hst : (g r0).status = r0.status := Option.some.inj (hsr.symm.trans hoth)
    rw [hst, hsum r0.id, specAllocSum_not_mem _ r0.id hmem, add_zero]
    exact hstat r0 hr0

theorem recordPayment_statusOk (db : DB) (now : Int) (c : Nat) (amount : Int)
    (date : Option Int) (note : String) (db' : DB) (created : List Payment)
    (hnodup : (db.invoices.map Invoice.id).Nodup)
    (hE : recordPayment db now c amount date note = .ok (db', created))
    (hstat : statusOk db) : statusOk db' := by
  have hcs := allocate_created_spec db.payments date now note (pendingOf db c) amount db
  have hfl := allocate_flips db.payments date now note (pendingOf db c) amount db
    (pendingOf_nodup db c hnodup) (pendingOf_status db c hnodup)
  have hpay := allocate_payments db.payments date now note (pendingOf db c) amount db
  have hshape := allocate_invoices_shape db.payments date now note (pendingOf db c) amount db
  simp only [recordPayment] at hE
  split at hE
  · exact Except.noConfusion hE
  split at hE
  · exact Except.noConfusion hE
  split at hE
  all_goals (
    rw [Except.ok.injEq, Prod.mk.injEq] at hE
    obtain ⟨hdb', hcr⟩ := hE
    subst hdb'
    subst hcr
    exact recordPayment_statusOk_core db _ c amount _ hnodup hshape hpay hcs hfl.1 hfl.2 hstat)

/-- C8: the status invariant — `invoice.status = PAID` iff the payments
recorded against the invoice sum to at least `invoice.amount`
(`statusOk`) — is preserved by each of the five core mutating operations.
The duplicate-freeness, id-freshness and amount-positivity hypotheses are
the store well-formedness facts (`WF`) every reachable store satisfies. -/
theorem status_invariant_preserved_by_core_ops :
    (∀ (db : DB) (now : Int) (orderId : Nat) (db' : DB) (inv : Invoice),
      (∀ p ∈ db.payments, p.invoiceId < db.nextId) →
      createInvoiceFromOrder db now orderId = .ok (db', inv) →
      statusOk db → statusOk db') ∧
    (∀ (db : DB) (now : Int) (c : Nat) (amount : Int) (date : Option Int) (note : String)
        (db' : DB) (ps : List Payment),
      (db.invoices.map Invoice.id).Nodup →
      recordPayment db now c amount date note = .ok (db', ps) →
      statusOk db → statusOk db') ∧
    (∀ (db : DB) (invoiceId : Nat) (amountValue : Int) (db' : DB) (invoice : Invoice),
      (db.invoices.map Invoice.id).Nodup →
      db.invoices.find? (fun i => i.id == invoiceId) = some invoice →
      editInvoiceAmount db invoiceId amountValue = .ok db' →
      statusOk db → statusOk db') ∧
    (∀ (db : DB) (invoiceId : Nat) (db' : DB),
      deleteInvoice db invoiceId = .ok db' →
      statusOk db → statusOk db') ∧
    (∀ (db : DB) (paymentId : Nat) (db' : DB) (payment : Payment) (invoice : Invoice),
      (db.invoices.map Invoice.id).Nodup →
      (db.payments.map Payment.id).Nodup →
      (∀ p ∈ db.payments, 0 < p.amount) →
      db.payments.find? (fun p => p.id == paymentId) = some payment →
      db.invoices.find? (fun i => i.id == payment.invoiceId) = some invoice →
      deletePayment db paymentId = .ok db' →
      statusOk db → statusOk db') :=
  ⟨fun db now orderId db' inv h1 h2 h3 =>
      createInvoice_statusOk db now orderId db' inv h1 h2 h3,
   fun db now c amount date note db' ps h1 h2 h3 =>
      recordPayment_statusOk db now c amount date note db' ps h1 h2 h3,
   fun db invoiceId amountValue db' invoice h1 h2 h3 h4 =>
      editInvoice_statusOk db invoiceId amountValue db' invoice h1 h2 h3 h4,
   fun db invoiceId db' h1 h2 =>
      deleteInvoice_statusOk db invoiceId db' h1 h2,
   fun db paymentId db' payment invoice h1 h2 h3 h4 h5 h6 h7 =>
      deletePayment_statusOk db paymentId db' payment invoice h1 h2 h3 h4 h5 h6 h7⟩

/-- Concrete instantiation of the C8 theorem: recording the 120 payment on
`twoInvoiceDB` (A fully covered and flipped to PAID, B partially covered and
left PENDING) preserves the status invariant. -/
theorem status_invariant_preserved_witness :
    statusOk twoInvoiceAfterDB :=
  status_invariant_preserved_by_core_ops.2.1 twoInvoiceDB 300 7 120 none ""
    twoInvoiceAfterDB twoInvoicePayments (by decide) (by decide) (by decide)



/-! ### Claim C6 -/

theorem head?_some_mem {α : Type} (l : List α) (a : α) (h : l.head? = some a) : a ∈ l := by
  cases l with
  | nil => exact Option.noConfusion h
  | cons x xs =>
    rw [List.head?_cons, Option.some.injEq] at h
    rw [← h]
    exact List.mem_cons_self x xs

theorem find?_map_id_pres_entry (f : AccountEntry → AccountEntry)
    (hid : ∀ x, (f x).id = x.id) (l : List AccountEntry) (i : Nat) :
    (l.map f).find? (fun e => e.id == i) = (l.find? (fun e => e.id == i)).map f := by
  induction l with
  | nil => rfl
  | cons x rest ih =>
    by_cases h : (x.id == i) = true
    · simp [List.find?_cons, hid, h]
    · simp [List.find?_cons, hid, h, ih]

theorem find?_entry_id_of_mem_nodup (l : List AccountEntry)
    (hn : (l.map AccountEntry.id).Nodup)
    (e : AccountEntry) (h : e ∈ l) :
    l.find? (fun e2 => e2.id == e.id) = some e := by
  induction l with
  | nil => exact absurd h (List.not_mem_nil e)
  | cons x rest ih =>
    rw [List.map_cons, List.nodup_cons] at hn
    rcases List.mem_cons.mp h with hh | hh
    · subst hh
      simp [List.find?_cons]
    · have hne : (x.id == e.id) = false := by
        simp only [beq_eq_false_iff_ne, ne_eq]
        intro hcc
        exact hn.1 (hcc ▸ List.mem_map_of_mem AccountEntry.id hh)
      simp [List.find?_cons, hne, ih hn.2 hh]

theorem findDebitEntry_mem (entries : List AccountEntry) (c i : Nat) (a t : Int)
    (e0 : AccountEntry) (h : findDebitEntry entries c i a t = some e0) : e0 ∈ entries := by
  simp only [findDebitEntry] at h
  split at h
  · rename_i e heq
    rw [Option.some.injEq] at h
    subst h
    have hm := head?_some_mem _ _ heq
    have hm2 := ((insSort_perm entryLe _).mem_iff).mp hm
    exact (List.mem_filter.mp hm2).1
  · have hm := head?_some_mem _ _ h
    have hm2 := ((insSort_perm entryLe _).mem_iff).mp hm
    exact (List.mem_filter.mp hm2).1

theorem find?_entries_debit (l : List AccountEntry) (f : AccountEntry → AccountEntry)
    (hfid : ∀ e, (f e).id = e.id) (hfdeb : ∀ e, (f e).debit = e.debit)
    (e0 : AccountEntry) (amountValue : Int)
    (hfe : l.find? (fun e => e.id == e0.id) = some e0) :
    (((l.map fun e => if e.id == e0.id then { e with debit := amountValue } else e).map f).find?
        (fun e => e.id == e0.id)).map (fun e => e.debit) = some amountValue := by
  rw [find?_map_id_pres_entry f hfid,
      find?_map_id_pres_entry _
        (fun x => by by_cases hb : (x.id == e0.id) = true <;> simp [hb]),
      hfe]
  simp [hfdeb]

theorem find?_invoices_set_pair (l : List Invoice) (invoiceId : Nat)
    (st : InvoiceStatus) (invoice : Invoice)
    (hfind : l.find? (fun i => i.id == invoiceId) = some invoice) :
    ((l.map fun inv => if inv.id == invoiceId then { inv with status := st } else inv).find?
        (fun i => i.id == invoiceId)).map (fun i => (i.amount, i.status)) =
      some (invoice.amount, st) := by
  rw [find?_map_id_pres _
      (fun x => by by_cases hb : (x.id == invoiceId) = true <;> simp [hb]), hfind]
  have hbp : invoice.id = invoiceId := by simpa using List.find?_some hfind
  simp [hbp]

theorem find?_invoices_map_pair (l : List Invoice) (invoiceId : Nat) (amountValue : Int)
    (st : InvoiceStatus) (invoice : Invoice)
    (hfind : l.find? (fun i => i.id == invoiceId) = some invoice) :
    (((l.map fun inv => if inv.id == invoiceId then { inv with amount := amountValue } else inv).map
        fun inv => if inv.id == invoiceId then { inv with status := st } else inv).find?
        (fun i => i.id == invoiceId)).map (fun i => (i.amount, i.status)) =
      some (amountValue, st) := by
  rw [find?_map_id_pres _
        (fun x => by by_cases hb : (x.id == invoiceId) = true <;> simp [hb]),
      find?_map_id_pres _
        (fun x => by by_cases hb : (x.id == invoiceId) = true <;> simp [hb]),
      hfind]
  have hbp : invoice.id = invoiceId := by simpa using List.find?_some hfind
  simp [hbp]

/-- Invoice 10 (client 1, amount 100) whose ledger debit row stores
`balanceAfter = 999`, disagreeing with the replayed running sum 100. -/
def editSameAmountDB : DB :=
  { clients := [1]
    workOrders := []
    invoices := [{ id := 10, clientId := 1, workOrderId := none, amount := 100,
                   currency := "ARS", status := .PENDING, createdAt := 0 }]
    payments := []
    entries := [{ id := 11, clientId := 1, invoiceId := 10, debit := 100, credit := 0,
                  balanceAfter := 999, createdAt := 0 }]
    nextId := 12 }

/-- C6 counterexample: `editInvoiceAmount(10, 100)` with the unchanged
amount succeeds but skips the debit repair and the `recomputeBalances`
call the claim promises: the stored balance 999 survives (a recompute
would write 100) and the returned store still violates the running-balance
invariant. -/
theorem editInvoice_same_amount_counterexample :
    (editInvoiceAmount editSameAmountDB 10 100).map
        (fun r => r.entries.map (fun e => e.balanceAfter)) = .ok [999] ∧
    (recomputeBalances editSameAmountDB 1).entries.map (fun e => e.balanceAfter) = [100] ∧
    (editInvoiceAmount editSameAmountDB 10 100).map (fun r => ledgerOk r 1) = .ok false :=
  ⟨by decide, by decide, by decide⟩

/-- C6 (amended): a successful `editInvoiceAmount(invoiceId, amountValue)`
always leaves the invoice row with `amount = amountValue` and status
`PAID` iff the payments recorded against it sum to at least `amountValue`
(else `PENDING`); and PROVIDED the amount actually changed (the proviso the
counterexample forces: the handler skips the repair when
`newAmount == oldAmount`), the ledger debit row located by
`findDebitEntry` — exact `(clientId, invoiceId, debit = oldAmount, ±5s)`
match first, first `debit > 0` row as fallback — carries
`debit = amountValue` afterwards and the client's recomputed ledger
satisfies the running-balance invariant. -/
theorem editInvoice_amount_update_and_repair
    (db : DB) (invoiceId : Nat) (amountValue : Int) (db' : DB) (invoice : Invoice)
    (hnodupE : (db.entries.map AccountEntry.id).Nodup)
    (hfind : db.invoices.find? (fun i => i.id == invoiceId) = some invoice)
    (hE : editInvoiceAmount db invoiceId amountValue = .ok db') :
    (db'.invoices.find? (fun i => i.id == invoiceId)).map (fun i => (i.amount, i.status)) =
      some (amountValue,
        if paymentsSum db invoiceId ≥ amountValue then InvoiceStatus.PAID else .PENDING) ∧
    (¬ invoice.amount = amountValue →
      ∀ e0, findDebitEntry db.entries invoice.clientId invoice.id invoice.amount
          invoice.createdAt = some e0 →
        (db'.entries.find? (fun e => e.id == e0.id)).map (fun e => e.debit) =
          some amountValue) ∧
    (¬ invoice.amount = amountValue → ledgerOk db' invoice.clientId = true) := by
  simp only [editInvoiceAmount] at hE
  split at hE
  · exact Except.noConfusion hE
  split at hE
  · exact Except.noConfusion hE
  rename_i inv0 heq0
  rw [hfind, Option.some.injEq] at heq0
  subst heq0
  rw [Except.ok.injEq] at hE
  subst hE
  by_cases hAmt : invoice.amount = amountValue
  · rw [if_neg (not_not_intro hAmt)]
    refine ⟨?_, fun hc => absurd hAmt hc, fun hc => absurd hAmt hc⟩
    rw [← hAmt]
    exact find?_invoices_set_pair db.invoices invoiceId _ invoice hfind
  · rw [if_pos hAmt]
    rcases hFD : findDebitEntry db.entries invoice.clientId invoice.id invoice.amount
        invoice.createdAt with _ | e0
    · refine ⟨?_, ?_, ?_⟩
      · exact find?_invoices_map_pair db.invoices invoiceId amountValue _ invoice hfind
      · intro _ e1 hFD2
        exact Option.noConfusion hFD2
      · intro _
        exact (ledgerOk_congr _ _ _ rfl).trans (ledgerOk_recompute _ _ hnodupE)
    · refine ⟨?_, ?_, ?_⟩
      · exact find?_invoices_map_pair db.invoices invoiceId amountValue _ invoice hfind
      · intro _ e1 hFD2
        rw [Option.some.injEq] at hFD2
        subst hFD2
        have hmem := findDebitEntry_mem db.entries invoice.clientId invoice.id invoice.amount
          invoice.createdAt e0 hFD
        have hfe := find?_entry_id_of_mem_nodup db.entries hnodupE e0 hmem
        exact find?_entries_debit db.entries (applyBals _) (applyBals_id _) (applyBals_debit _)
          e0 amountValue hfe
      · intro _
        refine (ledgerOk_congr _ _ _ rfl).trans (ledgerOk_recompute _ _ ?_)
        exact nodup_ids_map db.entries _
          (fun e => by by_cases hb : (e.id == e0.id) = true <;> simp [hb]) hnodupE

/-- `editSameAmountDB` after `editInvoiceAmount(10, 250)`: amount and debit
updated to 250, balance replayed to 250, status re-evaluated to PENDING. -/
def editedDB : DB :=
  { clients := [1]
    workOrders := []
    invoices := [{ id := 10, clientId := 1, workOrderId := none, amount := 250,
                   currency := "ARS", status := .PENDING, createdAt := 0 }]
    payments := []
    entries := [{ id := 11, clientId := 1, invoiceId := 10, debit := 250, credit := 0,
                  balanceAfter := 250, createdAt := 0 }]
    nextId := 12 }

/-- Concrete instantiation of amended C6: editing invoice 10 of
`editSameAmountDB` from 100 to 250 updates the row (still PENDING, no
payments), repairs the located debit entry 11 to 250, and re-establishes
the ledger invariant. -/
theorem editInvoice_amount_update_witness :
    ((editedDB.invoices.find? (fun i => i.id == 10)).map (fun i => (i.amount, i.status)) =
      some (250, if paymentsSum editSameAmountDB 10 ≥ 250 then InvoiceStatus.PAID
        else .PENDING)) ∧
    ((editedDB.entries.find? (fun e => e.id == 11)).map (fun e => e.debit) = some 250) ∧
    ledgerOk editedDB 1 = true :=
  have h := editInvoice_amount_update_and_repair editSameAmountDB 10 250 editedDB
    { id := 10, clientId := 1, workOrderId := none, amount := 100,
      currency := "ARS", status := .PENDING, createdAt := 0 }
    (by decide) (by decide) (by decide)
  ⟨h.1,
   h.2.1 (by decide)
     { id := 11, clientId := 1, invoiceId := 10, debit := 100, credit := 0,
       balanceAfter := 999, createdAt := 0 } (by decide),
   h.2.2 (by decide)⟩



/-! ### Claim C7 -/

theorem deletePayment_post_core (db dbR : DB) (paymentId : Nat) (payment : Payment)
    (invoice : Invoice) (es : List AccountEntry)
    (hiid : invoice.id = payment.invoiceId)
    (hfindI : db.invoices.find? (fun i => i.id == payment.invoiceId) = some invoice)
    (hRpay : dbR.payments = db.payments.filter fun p => ¬ p.id == paymentId)
    (hRinv : dbR.invoices = db.invoices)
    (hRstrip : dbR.entries.map stripBalance = es)
    (hRledger : ledgerOk dbR invoice.clientId = true) :
    (if paymentsSum dbR invoice.id < invoice.amount
        then setInvoiceStatus dbR invoice.id .PENDING else dbR).payments =
      db.payments.filter (fun p => ¬ p.id == paymentId) ∧
    (if paymentsSum dbR invoice.id < invoice.amount
        then setInvoiceStatus dbR invoice.id .PENDING else dbR).entries.map stripBalance = es ∧
    ledgerOk (if paymentsSum dbR invoice.id < invoice.amount
        then setInvoiceStatus dbR invoice.id .PENDING else dbR) invoice.clientId = true ∧
    invStatus (if paymentsSum dbR invoice.id < invoice.amount
        then setInvoiceStatus dbR invoice.id .PENDING else dbR) invoice.id =
      some (if paymentsSumIn (db.payments.filter fun p => ¬ p.id == paymentId) invoice.id <
          invoice.amount then InvoiceStatus.PENDING else invoice.status) := by
  have hfR : dbR.invoices.find? (fun i2 => i2.id == invoice.id) = some invoice := by
    rw [hRinv, hiid]
    exact hfindI
  have h9 : paymentsSum dbR invoice.id = paymentsSumIn (db.payments.filter fun p =>
      ¬ p.id == paymentId) invoice.id := by
    show paymentsSumIn dbR.payments invoice.id = _
    rw [hRpay]
  by_cases hC : paymentsSum dbR invoice.id < invoice.amount
  · rw [if_pos hC]
    refine ⟨hRpay, hRstrip, (ledgerOk_congr _ _ _ rfl).trans hRledger, ?_⟩
    rw [invStatus_set_self dbR invoice.id .PENDING invoice hfR]
    rw [h9] at hC
    rw [if_pos hC]
  · rw [if_neg hC]
    refine ⟨hRpay, hRstrip, hRledger, ?_⟩
    unfold invStatus
    rw [hfR, Option.map_some']
    rw [h9] at hC
    rw [if_neg hC]

/-- C7: a successful `deletePayment(paymentId)` removes exactly the payment
row; it removes the ledger credit entry located by `findCreditEntry` —
`(clientId, invoiceId, credit = paymentAmount, createdAt within ±5s)`,
earliest `createdAt` first — if and only if one is found (all other entry
rows survive, recompute rewrites only `balanceAfter`); the client's
recomputed ledger satisfies the running-balance invariant; and the invoice
status is set to PENDING exactly when the remaining payments on the
invoice sum below the invoice amount (else it keeps its previous status).  -/
theorem deletePayment_deletes_and_reverts
    (db : DB) (paymentId : Nat) (db' : DB) (payment : Payment) (invoice : Invoice)
    (hnodupE : (db.entries.map AccountEntry.id).Nodup)
    (hfindP : db.payments.find? (fun p => p.id == paymentId) = some payment)
    (hfindI : db.invoices.find? (fun i => i.id == payment.invoiceId) = some invoice)
    (hE : deletePayment db paymentId = .ok db') :
    db'.payments = db.payments.filter (fun p => ¬ p.id == paymentId) ∧
    (∀ e0, findCreditEntry db.entries invoice.clientId invoice.id payment.amount
        payment.createdAt = some e0 →
      db'.entries.map stripBalance =
        (db.entries.filter fun e => ¬ e.id == e0.id).map stripBalance) ∧
    (findCreditEntry db.entries invoice.clientId invoice.id payment.amount
        payment.createdAt = none →
      db'.entries.map stripBalance = db.entries.map stripBalance) ∧
    ledgerOk db' invoice.clientId = true ∧
    invStatus db' invoice.id =
      some (if paymentsSumIn (db.payments.filter fun p => ¬ p.id == paymentId) invoice.id <
          invoice.amount then InvoiceStatus.PENDING else invoice.status) := by
  have hinv2 : invoice.id = payment.invoiceId := by simpa using List.find?_some hfindI
  simp only [deletePayment] at hE
  split at hE
  · exact Except.noConfusion hE
  rename_i payment0 heqP
  rw [hfindP, Option.some.injEq] at heqP
  subst heqP
  split at hE
  · exact Except.noConfusion hE
  rename_i invoice0 heqI
  rw [hfindI, Option.some.injEq] at heqI
  subst heqI
  rw [Except.ok.injEq] at hE
  subst hE
  rcases hFC : findCreditEntry db.entries invoice.clientId invoice.id payment.amount
      payment.createdAt with _ | e0
  · have hstrip : (recomputeBalances { db with payments := db.payments.filter fun p =>
        ¬ p.id == paymentId } invoice.clientId).entries.map stripBalance =
        db.entries.map stripBalance := by
      rw [recompute_eq]
      dsimp only
      rw [List.map_map]
      exact List.map_congr_left fun a ha => stripBalance_applyBals _ _
    have hled : ledgerOk (recomputeBalances { db with payments := db.payments.filter fun p =>
        ¬ p.id == paymentId } invoice.clientId) invoice.clientId = true :=
      ledgerOk_recompute _ _ hnodupE
    obtain ⟨h1, h2, h3, h4⟩ := deletePayment_post_core db
      (recomputeBalances { db with payments := db.payments.filter fun p =>
        ¬ p.id == paymentId } invoice.clientId) paymentId payment invoice
      (db.entries.map stripBalance) hinv2 hfindI rfl rfl hstrip hled
    exact ⟨h1, fun e1 hsome => Option.noConfusion hsome, fun _ => h2, h3, h4⟩
  · have hstrip : (recomputeBalances { db with
        payments := db.payments.filter fun p => ¬ p.id == paymentId,
        entries := db.entries.filter fun e => ¬ e.id == e0.id }
        invoice.clientId).entries.map stripBalance =
        (db.entries.filter fun e => ¬ e.id == e0.id).map stripBalance := by
      rw [recompute_eq]
      dsimp only
      rw [List.map_map]
      exact List.map_congr_left fun a ha => stripBalance_applyBals _ _
    have hled : ledgerOk (recomputeBalances { db with
        payments := db.payments.filter fun p => ¬ p.id == paymentId,
        entries := db.entries.filter fun e => ¬ e.id == e0.id }
        invoice.clientId) invoice.clientId = true :=
      ledgerOk_recompute _ _ (nodup_ids_filter _ _ hnodupE)
    obtain ⟨h1, h2, h3, h4⟩ := deletePayment_post_core db
      (recomputeBalances { db with
        payments := db.payments.filter fun p => ¬ p.id == paymentId,
        entries := db.entries.filter fun e => ¬ e.id == e0.id }
        invoice.clientId) paymentId payment invoice
      ((db.entries.filter fun e => ¬ e.id == e0.id).map stripBalance)
      hinv2 hfindI rfl rfl hstrip hled
    refine ⟨h1, ?_, fun hnone => Option.noConfusion hnone, h3, h4⟩
    intro e1 hsome
    rw [Option.some.injEq] at hsome
    subst hsome
    exact h2

/-- Scenario 2's store: invoice 10 (2750, PAID), payment 12 (2750), debit
entry 11 and credit entry 13, running balances 2750 then 0. -/
def scenario2DB : DB :=
  { clients := [1]
    workOrders := [{ id := 5, dentistId := some 1, status := .DONE,
                     workType := some .PROTESIS, price := some 2750,
                     displayCode := some "OT-5", patientName := some "Ana" }]
    invoices := [{ id := 10, clientId := 1, workOrderId := some 5, amount := 2750,
                   currency := "ARS", status := .PAID, createdAt := 1000 }]
    payments := [{ id := 12, invoiceId := 10, provider := "MANUAL", providerRef := "",
                   amount := 2750, status := .COMPLETED, createdAt := 2000 }]
    entries := [{ id := 11, clientId := 1, invoiceId := 10, debit := 2750, credit := 0,
                  balanceAfter := 2750, createdAt := 1000 },
                { id := 13, clientId := 1, invoiceId := 10, debit := 0, credit := 2750,
                  balanceAfter := 0, createdAt := 2000 }]
    nextId := 14 }

/-- `scenario2DB` after `deletePayment(12)` (Scenario 5): payment and credit
entry removed, invoice back to PENDING, ledger restored to the single debit
with running balance 2750. -/
def scenario5DB : DB :=
  { clients := [1]
    workOrders := [{ id := 5, dentistId := some 1, status := .DONE,
                     workType := some .PROTESIS, price := some 2750,
                     displayCode := some "OT-5", patientName := some "Ana" }]
    invoices := [{ id := 10, clientId := 1, workOrderId := some 5, amount := 2750,
                   currency := "ARS", status := .PENDING, createdAt := 1000 }]
    payments := []
    entries := [{ id := 11, clientId := 1, invoiceId := 10, debit := 2750, credit := 0,
                  balanceAfter := 2750, createdAt := 1000 }]
    nextId := 14 }

/-- Concrete instantiation of C7 (Scenario 5): deleting payment 12 of
`scenario2DB` removes the payment row and the matched credit entry 13,
restores the pre-payment running balance, and reverts invoice 10 to
PENDING because the remaining payments (0) fall below 2750. -/
theorem deletePayment_deletes_and_reverts_witness :
    scenario5DB.payments = scenario2DB.payments.filter (fun p => ¬ p.id == 12) ∧
    scenario5DB.entries.map stripBalance =
      (scenario2DB.entries.filter fun e => ¬ e.id == 13).map stripBalance ∧
    ledgerOk scenario5DB 1 = true ∧
    invStatus scenario5DB 10 =
      some (if paymentsSumIn (scenario2DB.payments.filter fun p => ¬ p.id == 12) 10 < 2750
        then InvoiceStatus.PENDING else InvoiceStatus.PAID) :=
  have h := deletePayment_deletes_and_reverts scenario2DB 12 scenario5DB
    { id := 12, invoiceId := 10, provider := "MANUAL", providerRef := "",
      amount := 2750, status := .COMPLETED, createdAt := 2000 }
    { id := 10, clientId := 1, workOrderId := some 5, amount := 2750,
      currency := "ARS", status := .PAID, createdAt := 1000 }
    (by decide) (by decide) (by decide) (by decide)
  ⟨h.1,
   h.2.1 { id := 13, clientId := 1, invoiceId := 10, debit := 0, credit := 2750,
           balanceAfter := 0, createdAt := 2000 } (by decide),
   h.2.2.2.1, h.2.2.2.2⟩



/-! ### Claims C9 and C10 -/

theorem mkStatementRow_facturas (i : List Invoice) (w : List WorkOrder) (p : List Payment)
    (e : AccountEntry) : (mkStatementRow i w p e).facturas = e.debit := by
  simp only [mkStatementRow]
  split_ifs <;> rfl

theorem mkStatementRow_entregas (i : List Invoice) (w : List WorkOrder) (p : List Payment)
    (e : AccountEntry) : (mkStatementRow i w p e).entregas = e.credit := by
  simp only [mkStatementRow]
  split_ifs <;> rfl

theorem mkStatementRow_fecha (i : List Invoice) (w : List WorkOrder) (p : List Payment)
    (e : AccountEntry) : (mkStatementRow i w p e).fecha = e.createdAt := by
  simp only [mkStatementRow]
  split_ifs <;> rfl

theorem mkStatementRow_tipo_factura (i : List Invoice) (w : List WorkOrder) (p : List Payment)
    (e : AccountEntry) (h : e.debit > 0) : (mkStatementRow i w p e).tipo = "FACTURA" := by
  simp only [mkStatementRow]
  rw [if_pos h]

theorem mkStatementRow_tipo_pago (i : List Invoice) (w : List WorkOrder) (p : List Payment)
    (e : AccountEntry) (h1 : ¬ e.debit > 0) (h2 : e.credit > 0) :
    (mkStatementRow i w p e).tipo = "PAGO" := by
  simp only [mkStatementRow]
  rw [if_neg h1, if_pos h2]

theorem mkStatementRow_tipo_mov (i : List Invoice) (w : List WorkOrder) (p : List Payment)
    (e : AccountEntry) (h1 : ¬ e.debit > 0) (h2 : ¬ e.credit > 0) :
    (mkStatementRow i w p e).tipo = "MOVIMIENTO" := by
  simp only [mkStatementRow]
  rw [if_neg h1, if_neg h2]

theorem mkStatementRow_paymentId (i : List Invoice) (w : List WorkOrder) (p : List Payment)
    (e : AccountEntry) (pid : Nat) (h : (mkStatementRow i w p e).paymentId = some pid) :
    ∃ q, p.find? (fun p2 => decide (p2.amount = e.credit) &&
        decide ((p2.createdAt - e.createdAt).natAbs < 5000)) = some q ∧ q.id = pid := by
  simp only [mkStatementRow] at h
  split_ifs at h
  all_goals dsimp only at h
  all_goals try exact Option.noConfusion h
  rcases hq : p.find? (fun p2 => decide (p2.amount = e.credit) &&
      decide ((p2.createdAt - e.createdAt).natAbs < 5000)) with _ | q
  · rw [hq, Option.map_none'] at h
    exact Option.noConfusion h
  · rw [hq, Option.map_some'] at h
    exact ⟨q, hq, Option.some.inj h⟩

/-- The client's in-range ledger rows in ascending `(createdAt, id)` order,
as the statement handler loads them. -/
def statementEntries (db : DB) (clientId : Nat) (dateFrom dateTo : Option Int) :
    List AccountEntry :=
  insSort entryLe (db.entries.filter fun e => e.clientId == clientId &&
    ((match dateFrom with
      | some f => decide (f ≤ e.createdAt)
      | none => true) &&
     (match dateTo with
      | some t => decide (e.createdAt ≤ endOfDayMs t)
      | none => true)))

/-- The payment rows the statement handler fetches for reconciliation: all
payments against the invoice ids of the selected ledger rows, in storage
(insertion) order. -/
def statementPayments (db : DB) (clientId : Nat) (dateFrom dateTo : Option Int) :
    List Payment :=
  db.payments.filter fun p =>
    (((statementEntries db clientId dateFrom dateTo).map AccountEntry.invoiceId).dedup).contains
      p.invoiceId

/-- Client 1 with a single credit row (100 at t = 10000) and two candidate
payments of amount 100 inside the 5-second window: id 20 stored first but
created later (12000), id 21 stored second but created earlier (9000). -/
def ambiguousMatchDB : DB :=
  { clients := [1]
    workOrders := []
    invoices := [{ id := 10, clientId := 1, workOrderId := none, amount := 100,
                   currency := "ARS", status := .PAID, createdAt := 0 }]
    payments := [{ id := 20, invoiceId := 10, provider := "MANUAL", providerRef := "late",
                   amount := 100, status := .COMPLETED, createdAt := 12000 },
                 { id := 21, invoiceId := 10, provider := "MANUAL", providerRef := "early",
                   amount := 100, status := .COMPLETED, createdAt := 9000 }]
    entries := [{ id := 30, clientId := 1, invoiceId := 10, debit := 0, credit := 100,
                  balanceAfter := -100, createdAt := 10000 }]
    nextId := 40 }

/-- C9 counterexample: both payments 20 (created 12000) and 21 (created
9000) match the credit row at 10000 (same amount, within 5 s); the first
CHRONOLOGICAL candidate is 21, but the statement row reports payment 20 —
the handler takes the first candidate in storage order, not in
chronological order. -/
theorem statement_match_not_chronological_counterexample :
    (getStatementByClient ambiguousMatchDB 1 none none).map
        (fun s => s.rows.map (fun r => r.paymentId)) = .ok [some 20] ∧
    (ambiguousMatchDB.payments.filter fun p => decide (p.amount = 100) &&
        decide ((p.createdAt - 10000).natAbs < 5000)).map (fun p => (p.id, p.createdAt)) =
      [(20, 12000), (21, 9000)] :=
  ⟨by decide, by decide⟩

/-- C9 (amended): a successful `getStatement(clientId, dateFrom?, dateTo?)`
reports the client id; its totals are exactly {facturas = Σ row debits,
entregas = Σ row credits, saldo = facturas − entregas} over the returned
rows; every row is classified FACTURA when its debit is positive, PAGO when
its debit is non-positive and its credit positive, MOVIMIENTO otherwise;
and a PAGO row's reconciled `paymentId` always denotes a stored payment
with the row's amount inside the 5-second window — the first such
candidate in storage (insertion) order of the fetched payment rows, not
the first chronological one (forced by the counterexample). -/
theorem getStatement_classifies_and_totals
    (db : DB) (clientId : Nat) (dateFrom dateTo : Option Int) (stmt : Statement)
    (hE : getStatementByClient db clientId dateFrom dateTo = .ok stmt) :
    stmt.clientId = clientId ∧
    stmt.totals.facturas = (stmt.rows.map StatementRow.facturas).foldr (· + ·) 0 ∧
    stmt.totals.entregas = (stmt.rows.map StatementRow.entregas).foldr (· + ·) 0 ∧
    stmt.totals.saldo = stmt.totals.facturas - stmt.totals.entregas ∧
    (∀ r ∈ stmt.rows,
      (0 < r.facturas → r.tipo = "FACTURA") ∧
      (r.facturas ≤ 0 → 0 < r.entregas → r.tipo = "PAGO") ∧
      (r.facturas ≤ 0 → r.entregas ≤ 0 → r.tipo = "MOVIMIENTO") ∧
      (∀ pid, r.paymentId = some pid →
        ∃ q ∈ db.payments,
          (statementPayments db clientId dateFrom dateTo).find?
            (fun p2 => decide (p2.amount = r.entregas) &&
              decide ((p2.createdAt - r.fecha).natAbs < 5000)) = some q ∧
          q.id = pid ∧ q.amount = r.entregas ∧ (q.createdAt - r.fecha).natAbs < 5000)) := by
  simp only [getStatementByClient] at hE
  split at hE
  · exact Except.noConfusion hE
  rw [Except.ok.injEq] at hE
  subst hE
  refine ⟨rfl, ?_, ?_, rfl, ?_⟩
  · dsimp only
    rw [List.map_map]
    exact congrArg (fun l => List.foldr (· + ·) 0 l)
      (List.map_congr_left fun e he => (mkStatementRow_facturas _ _ _ e).symm)
  · dsimp only
    rw [List.map_map]
    exact congrArg (fun l => List.foldr (· + ·) 0 l)
      (List.map_congr_left fun e he => (mkStatementRow_entregas _ _ _ e).symm)
  · intro r hr
    obtain ⟨e, he, hre⟩ := List.mem_map.mp hr
    subst hre
    refine ⟨?_, ?_, ?_, ?_⟩
    · intro hf
      rw [mkStatementRow_facturas] at hf
      exact mkStatementRow_tipo_factura _ _ _ _ hf
    · intro hf hc
      rw [mkStatementRow_facturas] at hf
      rw [mkStatementRow_entregas] at hc
      exact mkStatementRow_tipo_pago _ _ _ _ (not_lt.mpr hf) hc
    · intro hf hc
      rw [mkStatementRow_facturas] at hf
      rw [mkStatementRow_entregas] at hc
      exact mkStatementRow_tipo_mov _ _ _ _ (not_lt.mpr hf) (not_lt.mpr hc)
    · intro pid hpid
      obtain ⟨q, hq, hqid⟩ := mkStatementRow_paymentId _ _ _ e pid hpid
      have hqpred := List.find?_some hq
      simp only [Bool.and_eq_true, decide_eq_true_eq] at hqpred
      have hqmem := List.mem_of_find?_eq_some hq
      simp only [mkStatementRow_entregas, mkStatementRow_fecha]
      exact ⟨q, List.mem_of_mem_filter hqmem, hq, hqid, hqpred.1, hqpred.2⟩

/-- The statement `getStatement(1)` returns on `ambiguousMatchDB`. -/
def ambiguousStatement : Statement :=
  { clientId := 1
    rows := [{ fecha := 10000, tipo := "PAGO", compNro := "10", ordenId := none,
               detalle := "late", paciente := "-", facturas := 0, entregas := 100,
               saldoAcumulado := -100, paymentId := some 20, invoiceId := some 10 }]
    totals := { facturas := 0, entregas := 100, saldo := -100 } }

/-- Concrete instantiation of amended C9 on `ambiguousMatchDB`. -/
theorem getStatement_classifies_witness :
    ambiguousStatement.clientId = 1 ∧
    ambiguousStatement.totals.facturas =
      (ambiguousStatement.rows.map StatementRow.facturas).foldr (· + ·) 0 ∧
    ambiguousStatement.totals.entregas =
      (ambiguousStatement.rows.map StatementRow.entregas).foldr (· + ·) 0 ∧
    ambiguousStatement.totals.saldo =
      ambiguousStatement.totals.facturas - ambiguousStatement.totals.entregas ∧
    (∀ r ∈ ambiguousStatement.rows,
      (0 < r.facturas → r.tipo = "FACTURA") ∧
      (r.facturas ≤ 0 → 0 < r.entregas → r.tipo = "PAGO") ∧
      (r.facturas ≤ 0 → r.entregas ≤ 0 → r.tipo = "MOVIMIENTO") ∧
      (∀ pid, r.paymentId = some pid →
        ∃ q ∈ ambiguousMatchDB.payments,
          (statementPayments ambiguousMatchDB 1 none none).find?
            (fun p2 => decide (p2.amount = r.entregas) &&
              decide ((p2.createdAt - r.fecha).natAbs < 5000)) = some q ∧
          q.id = pid ∧ q.amount = r.entregas ∧ (q.createdAt - r.fecha).natAbs < 5000)) :=
  getStatement_classifies_and_totals ambiguousMatchDB 1 none none ambiguousStatement (by decide)

/-- C10 counterexample: every storage read in the model succeeds, yet
`getStatement(99)` on `ambiguousMatchDB` raises `ClientNotFound` (the same
store answers `getStatement(1)` with a statement), so "the only failure it
may raise is a storage-access failure" is wrong: it also throws for an
unknown client id. -/
theorem statement_throws_on_unknown_client_counterexample :
    getStatementByClient ambiguousMatchDB 99 none none = .error .ClientNotFound ∧
    getStatementByClient ambiguousMatchDB 1 none none = .ok ambiguousStatement :=
  ⟨by decide, by decide⟩

/-- C10 (amended): `getStatement` never throws on ambiguous or missing
reconciliation matches or on any ledger content — for every store it is
total on known clients: when the client id is present it returns a
Statement, and its only failure, raised exactly when the client id is
absent, is `ClientNotFound`. -/
theorem getStatement_total_on_known_clients (db : DB) (clientId : Nat)
    (dateFrom dateTo : Option Int) :
    (db.clients.contains clientId = true →
      ∃ s, getStatementByClient db clientId dateFrom dateTo = .ok s) ∧
    (db.clients.contains clientId = false →
      getStatementByClient db clientId dateFrom dateTo = .error .ClientNotFound) := by
  unfold getStatementByClient
  constructor
  · intro h
    rw [if_neg (not_not_intro h)]
    exact ⟨_, rfl⟩
  · intro h
    have hnc : ¬ db.clients.contains clientId = true := by
      rw [h]
      exact Bool.false_ne_true
    rw [if_pos hnc]

/-- Concrete instantiation of amended C10: client 1 of `ambiguousMatchDB`
gets a statement, client 99 gets exactly `ClientNotFound`. -/
theorem getStatement_total_witness :
    (∃ s, getStatementByClient ambiguousMatchDB 1 none none = .ok s) ∧
    getStatementByClient ambiguousMatchDB 99 none none = .error .ClientNotFound :=
  ⟨(getStatement_total_on_known_clients ambiguousMatchDB 1 none none).1 (by decide),
   (getStatement_total_on_known_clients ambiguousMatchDB 99 none none).2 (by decide)⟩

end Dent
